import Mathlib

/-!
Verification of the speedy-vision GPU pipeline core against its
natural-language specification.

The development shallowly embeds the JavaScript source:
* the shader preprocessor (`shader-preprocessor.js`, two versions present
  in the repository snapshot: the 2024 one and the 2023 one),
* the pipeline port layer (`pipeline-port.js`, `pipeline-portspec.js`),
* the keypoint decoding routine (`keypoints.glsl`),
* the fence-polling routine and the buffered reader of
  `speedy-texture-reader.js`.

Strings are modelled as `List Char`.  JavaScript regex-based `replace`
passes are modelled by deterministic scanners that reproduce the regex
semantics on the patterns the source uses (the analysis of backtracking
behaviour accompanies each scanner).  Machine numbers are modelled as
`Int`; JS `Map<string, number>` objects are modelled as association
lists in insertion order.
-/

set_option exponentiation.threshold 2000

set_option maxRecDepth 8000

namespace Speedy

/-- Strings, modelled as lists of characters. -/
abbrev Str := List Char

/-- Coerce a Lean string literal to the model type. -/
def str (s : String) : Str := s.data

/-- JS regex `\w` character class: `[A-Za-z0-9_]`. -/
def isWordChar (c : Char) : Bool :=
  (c ≥ 'a' && c ≤ 'z') || (c ≥ 'A' && c ≤ 'Z') || (c ≥ '0' && c ≤ '9') || c = '_'

/-- JS regex `\s` character class (ASCII part: space, tab, LF, VT, FF, CR). -/
def isSpaceChar (c : Char) : Bool :=
  c = ' ' || c = '\t' || c = '\n' || c = '\x0b' || c = '\x0c' || c = '\r'

/-- `[0-9]`. -/
def isDigitChar (c : Char) : Bool := c ≥ '0' && c ≤ '9'

/-- Longest prefix of word characters, with the remainder. -/
def takeWord (s : Str) : Str × Str :=
  match s with
  | [] => ([], [])
  | c :: rest =>
    if isWordChar c then
      let (w, r) := takeWord rest
      (c :: w, r)
    else
      ([], s)

/-- Longest prefix of whitespace (greedy `\s*`), returning the remainder. -/
def skipWs (s : Str) : Str :=
  match s with
  | [] => []
  | c :: rest => if isSpaceChar c then skipWs rest else s

/-- Longest prefix of decimal digits, with the remainder. -/
def takeDigits (s : Str) : Str × Str :=
  match s with
  | [] => ([], [])
  | c :: rest =>
    if isDigitChar c then
      let (w, r) := takeDigits rest
      (c :: w, r)
    else
      ([], s)

/-- Value of a list of decimal digits. -/
def digitsVal (s : Str) : Nat :=
  s.foldl (fun acc c => acc * 10 + (c.toNat - '0'.toNat)) 0

/-- Drop a literal prefix, or fail. -/
def dropLit (lit : Str) (s : Str) : Option Str :=
  match lit, s with
  | [], s => some s
  | l :: ls, c :: cs => if c = l then dropLit ls cs else none
  | _ :: _, [] => none

/-- JS `String(n)` for an integer `n` (decimal, `-` sign). -/
def intToStr (n : Int) : Str := (toString n).data

/-!
### Comment stripping

`commentsRegex = [ /\/\*(.|\s)*?\*\//g , /\/\/.*$/gm ]`.

The first regex removes each `/*` up to the closest following `*/`
(lazy `*?`); a `/*` with no closing `*/` matches nothing.  The second
removes `//` and everything up to (excluding) the end of the line.
-/

/-- Remainder after the closest `*/`, if any. -/
def afterBlockClose (s : Str) : Option Str :=
  match s with
  | [] => none
  | '*' :: '/' :: rest => some rest
  | _ :: rest => afterBlockClose rest

/-- One fuelled scanning step of `replace(/\/\*(.|\s)*?\*\//g, '')`. -/
def stripBlockGo : Nat → Str → Str
  | 0, s => s
  | _ + 1, [] => []
  | fuel + 1, '/' :: '*' :: rest =>
    match afterBlockClose rest with
    | some rest' => stripBlockGo fuel rest'
    | none => '/' :: '*' :: rest
  | fuel + 1, c :: rest => c :: stripBlockGo fuel rest

/-- `code.replace(commentsRegex[0], '')`. -/
def stripBlockComments (s : Str) : Str := stripBlockGo s.length s

/-- Remainder from the next newline on (the newline is kept: `.` does
not match it and `$` is a zero-width assertion). -/
def dropToEol (s : Str) : Str :=
  match s with
  | [] => []
  | '\n' :: rest => '\n' :: rest
  | _ :: rest => dropToEol rest

/-- One fuelled scanning step of `replace(/\/\/.*$/gm, '')`. -/
def stripLineGo : Nat → Str → Str
  | 0, s => s
  | _ + 1, [] => []
  | fuel + 1, '/' :: '/' :: rest => stripLineGo fuel (dropToEol rest)
  | fuel + 1, c :: rest => c :: stripLineGo fuel rest

/-- `code.replace(commentsRegex[1], '')`. -/
def stripLineComments (s : Str) : Str := stripLineGo s.length s

/-!
### Constant substitution

`constantRegex = /@(\w+)@/g`, replaced through a callback that resolves
the captured name and, if the name is unknown, pushes an error message
and produces `0`.  Both versions of the preprocessor share this scanner;
they differ only in the resolution map and in the error message text.
-/

/-- Preprocessor constants: a JS `Map<string, number>` in insertion
order, with numeric values modelled as integers. -/
abbrev Defines := List (Str × Int)

/-- `map.has(key)`. -/
def dhas (d : Defines) (k : Str) : Bool := d.any (fun p => p.1 = k)

/-- `map.get(key)` (0 for a missing key; only used when `has` holds). -/
def dget (d : Defines) (k : Str) : Int :=
  match d.find? (fun p => p.1 = k) with
  | some p => p.2
  | none => 0

/-- Try to match `(\w+)@` right after an initial `@`. -/
def matchConstAfterAt (s : Str) : Option (Str × Str) :=
  let (name, rest) := takeWord s
  match name, rest with
  | [], _ => none
  | _, '@' :: rest' => some (name, rest')
  | _, _ => none

/-- One fuelled scanning step of `replace(/@(\w+)@/g, cb)`.  `resolve`
returns the numeric value of a known name; for an unknown name the
callback pushes `mkErr name` and yields `0`. -/
def substConstGo (resolve : Str → Option Int) (mkErr : Str → Str) :
    Nat → Str → Str × List Str
  | 0, s => (s, [])
  | _ + 1, [] => ([], [])
  | fuel + 1, '@' :: rest =>
    match matchConstAfterAt rest with
    | some (name, rest') =>
      let (repl, errs₀) :=
        match resolve name with
        | some v => (intToStr v, ([] : List Str))
        | none => (str "0", [mkErr name])
      let (tail, errs) := substConstGo resolve mkErr fuel rest'
      (repl ++ tail, errs₀ ++ errs)
    | none =>
      let (tail, errs) := substConstGo resolve mkErr fuel rest
      ('@' :: tail, errs)
  | fuel + 1, c :: rest =>
    let (tail, errs) := substConstGo resolve mkErr fuel rest
    (c :: tail, errs)

/-- `code.replace(constantRegex, cb)` together with the error list the
callback accumulated, in match order. -/
def substConstants (resolve : Str → Option Int) (mkErr : Str → Str) (s : Str) :
    Str × List Str :=
  substConstGo resolve mkErr s.length s

/-- Preprocessor failures (`FileNotFoundError`, `ParseError`,
`Utils.assert`, plus fuel exhaustion for the unbounded `@include`
recursion, which the source performs without cycle detection). -/
inductive PErr where
  | fileNotFound
  | parseError
  | assertionFailed
  | outOfFuel
deriving DecidableEq, Repr

/-!
### Include expansion

`includeRegex = /^\s*@\s*include\s+"(.*?)"/gm`.  `^` anchors at line
starts (`m` flag); `\s` also matches newlines, so the leading `\s*` may
swallow blank lines; the lazy `(.*?)` stops at the first `"` and cannot
cross a newline (`.`).  Since `@`, `i` and `"` are not whitespace, the
greedy whitespace runs never backtrack usefully and the scan is
deterministic.
-/

/-- The file name captured by `(.*?)"`, with the remainder after the
closing quote. -/
def takeFilename (s : Str) : Option (Str × Str) :=
  match s with
  | [] => none
  | '"' :: rest => some ([], rest)
  | '\n' :: _ => none
  | c :: rest =>
    match takeFilename rest with
    | some (f, r) => some (c :: f, r)
    | none => none

/-- Try the include directive pattern at a line start. -/
def parseInclude (s : Str) : Option (Str × Str) := do
  let r1 ← match skipWs s with
           | '@' :: r => some r
           | _ => none
  let r2 ← dropLit (str "include") (skipWs r1)
  let r3 ← match r2 with
           | c :: _ => if isSpaceChar c then some (skipWs r2) else none
           | [] => none
  let r4 ← match r3 with
           | '"' :: r => some r
           | _ => none
  takeFilename r4

/-- `readfileSync`: validate the file name against
`/^[a-zA-Z0-9_-]+\.glsl$/` and fetch the file.  The bundled
`shaders/include/` folder is external to the embedding, so the file
store is a parameter; a name that is absent from it fails like an
unresolvable `require`. -/
def FS := List (Str × Str)

/-- Does the file name match `/^[a-zA-Z0-9_-]+\.glsl$/`? -/
def isValidShaderFilename (f : Str) : Bool :=
  let n := f.length
  decide (6 ≤ n) &&
  (f.drop (n - 5) = str ".glsl") &&
  (f.take (n - 5)).all (fun c => isWordChar c || c = '-')

def readfileSync (fs : FS) (filename : Str) : Except PErr Str :=
  if isValidShaderFilename filename then
    match fs.find? (fun p => p.1 = filename) with
    | some p => .ok p.2
    | none => .error .fileNotFound
  else
    .error .fileNotFound

/-- One fuelled scanning step of `replace(includeRegex, cb)`.  `atLS`
records whether the current position is a line start; `recur` is the
callback body (read the file, recursively preprocess it). -/
def expandIncludesGo (recur : Str → Except PErr Str) :
    Nat → Bool → Str → Except PErr Str
  | 0, _, s => .ok s
  | _ + 1, _, [] => .ok []
  | fuel + 1, atLS, c :: rest =>
    if atLS then
      match parseInclude (c :: rest) with
      | some (filename, rem) => do
        let repl ← recur filename
        let tail ← expandIncludesGo recur fuel false rem
        .ok (repl ++ tail)
      | none => do
        let tail ← expandIncludesGo recur fuel (c = '\n') rest
        .ok (c :: tail)
    else do
      let tail ← expandIncludesGo recur fuel (c = '\n') rest
      .ok (c :: tail)

/-- `code.replace(includeRegex, (_, filename) => recur(filename))`. -/
def expandIncludes (recur : Str → Except PErr Str) (s : Str) : Except PErr Str :=
  expandIncludesGo recur s.length true s

/-!
### JS numeric string conversions

In `unroll`, the loop limits captured by `(-?\d+|\w+)` are tested with
`Number.isFinite(+s)` and converted with `parseInt(s)`.  On the capture
sublanguage (an optional `-` followed by digits, or a run of word
characters) `Number(s)` recognises decimal, hex `0x`, binary `0b`,
octal `0o` and exponent `\d+[eE]\d+` forms; the result is finite
exactly when the value is below the IEEE-754 double overflow boundary
`2^1024 - 2^970`.  Integer values are modelled exactly (JS rounds
values above `2^53`; the claims only involve small integers). -/

def isHexDigitChar (c : Char) : Bool :=
  isDigitChar c || (c ≥ 'a' && c ≤ 'f') || (c ≥ 'A' && c ≤ 'F')

def isBinDigitChar (c : Char) : Bool := c = '0' || c = '1'

def isOctDigitChar (c : Char) : Bool := c ≥ '0' && c ≤ '7'

def hexDigitVal (c : Char) : Nat :=
  if isDigitChar c then c.toNat - '0'.toNat
  else if c ≥ 'a' && c ≤ 'f' then c.toNat - 'a'.toNat + 10
  else if c ≥ 'A' && c ≤ 'F' then c.toNat - 'A'.toNat + 10
  else 0

def radixVal (radix : Nat) (digitVal : Char → Nat) (s : Str) : Nat :=
  s.foldl (fun acc c => acc * radix + digitVal c) 0

/-- `\d+[eE]\d+` scientific form of a word-character string. -/
def sciMagnitude (s : Str) : Option Nat :=
  match takeDigits s with
  | (m@(_ :: _), e :: rest) =>
    if (e = 'e' || e = 'E') && (!rest.isEmpty) && rest.all isDigitChar then
      some (digitsVal m * 10 ^ digitsVal rest)
    else none
  | _ => none

/-- Magnitude of `Number(s)` on the capture sublanguage (`none` when the
result is `NaN`). -/
def jsNumMagnitude : Str → Option Nat
  | [] => none
  | '-' :: r =>
    if (!r.isEmpty) && r.all isDigitChar then some (digitsVal r) else none
  | s =>
    if s.all isDigitChar then some (digitsVal s)
    else match s with
    | '0' :: x :: r =>
      if (x = 'x' || x = 'X') && (!r.isEmpty) && r.all isHexDigitChar then
        some (radixVal 16 hexDigitVal r)
      else if (x = 'b' || x = 'B') && (!r.isEmpty) && r.all isBinDigitChar then
        some (radixVal 2 hexDigitVal r)
      else if (x = 'o' || x = 'O') && (!r.isEmpty) && r.all isOctDigitChar then
        some (radixVal 8 hexDigitVal r)
      else sciMagnitude s
    | _ => sciMagnitude s

/-- `Number.isFinite(+s)` on the capture sublanguage. -/
def jsFiniteNumber (s : Str) : Bool :=
  match jsNumMagnitude s with
  | some m => decide (m < 2 ^ 1024 - 2 ^ 970)
  | none => false

/-- `parseInt(s)` on the capture sublanguage: optional sign, then a hex
literal (`0x` prefix) or the maximal decimal digit prefix. -/
def jsParseInt : Str → Int
  | '-' :: r => -(digitsVal (takeDigits r).1 : Int)
  | '0' :: x :: r =>
    if (x = 'x' || x = 'X') && (!r.isEmpty) && r.all isHexDigitChar then
      (radixVal 16 hexDigitVal r : Int)
    else (digitsVal (takeDigits ('0' :: x :: r)).1 : Int)
  | s => (digitsVal (takeDigits s).1 : Int)

/-!
### Loop unrolling

```
unrollRegex = [
  /@\s*unroll\s+?for\s*\(\s*(int|)\s*(?<counter>\w+)\s*=\s*(-?\d+|\w+)\s*;
    \s*\k<counter>\s*(<=?)\s*(-?\d+|\w+)\s*;\s*\k<counter>\s*\+\+()\s*\)
    \s*\{\s*([\s\S]+?)\s*\}/g,
  ... (second regex: `\+=\s*(-?\d+)` in place of `\+\+()`) ]
```

Scanner notes, mirroring the regex engine:
* `\s+?for` is equivalent to skipping the maximal whitespace run (at
  least one character) and then requiring `for`, since the characters
  being skipped cannot start `for`;
* `(int|)` backtracks: the empty alternative is tried when the
  remainder fails after `int`;
* a limit `(-?\d+|\w+)` is always followed by `\s*;` (after `<`/`<=`
  for the end limit); if the digit alternative reaches the `;` the word
  alternative would have captured the same characters, so committing
  locally on the `;` is faithful;
* `(<=?)` is greedy, and retrying `<` after `<=` cannot help because
  the following limit cannot start with `=`;
* `\{\s*([\s\S]+?)\s*\}` takes the maximal whitespace after `{`, then
  the lazy body ends at the first `}` reachable with a nonempty body;
  when the first non-whitespace character is the only `}`, the engine
  backtracks one whitespace character into the body.
-/

/-- The captures of one unroll match, plus the full matched text. -/
structure UnrollMatch where
  matched : Str
  type : Str
  counter : Str
  start : Str
  cmp : Str
  endB : Str
  step : Str
  loopcode : Str
deriving DecidableEq, Repr

/-- `-?\d+` (greedy digits). -/
def parseSignedDigits (s : Str) : Option (Str × Str) :=
  match s with
  | '-' :: rest =>
    match takeDigits rest with
    | ([], _) => none
    | (ds, r) => some ('-' :: ds, r)
  | _ =>
    match takeDigits s with
    | ([], _) => none
    | (ds, r) => some (ds, r)

/-- `(-?\d+|\w+)\s*;` — a loop limit committed on its `;`. -/
def parseBoundSemi (s : Str) : Option (Str × Str) :=
  (do
    let (b, r) ← parseSignedDigits s
    match skipWs r with
    | ';' :: r2 => some (b, r2)
    | _ => none)
  <|>
  (match takeWord s with
   | ([], _) => none
   | (w, r) =>
     match skipWs r with
     | ';' :: r2 => some (w, r2)
     | _ => none)

/-- `\s*(?<counter>\w+)\s*=` after the optional type token. -/
def parseCounterEq (s : Str) : Option (Str × Str) :=
  match takeWord (skipWs s) with
  | ([], _) => none
  | (counter, r) =>
    match skipWs r with
    | '=' :: r2 => some (counter, r2)
    | _ => none

/-- `\{\s*([\s\S]+?)\s*\}` immediately after the `{`: the loop body and
the remainder after the closing `}`. -/
def parseBody (t : Str) : Option (Str × Str) :=
  let rest0 := skipWs t
  let wsPart := t.take (t.length - rest0.length)
  match rest0 with
  | [] => none
  | c0 :: tail =>
    match (tail.findIdx? (fun c => c = '\x7d')).map (· + 1) with
    | some q =>
      let pre := rest0.take q
      let tws := (pre.reverse.takeWhile isSpaceChar).length
      let r := max 1 (q - tws)
      some (rest0.take r, rest0.drop (q + 1))
    | none =>
      if c0 = '\x7d' then
        match wsPart.reverse with
        | w :: _ => some ([w], tail)
        | [] => none
      else none

/-- Try one unroll pattern at a position starting with `@`.  `incForm`
selects `\+\+()` (first regex) or `\+=\s*(-?\d+)` (second regex). -/
def parseUnroll (incForm : Bool) (s : Str) : Option (UnrollMatch × Str) := do
  let r1 ← match s with
           | '@' :: r => some r
           | _ => none
  let r2 ← dropLit (str "unroll") (skipWs r1)
  let r3 ← match r2 with
           | c :: _ => if isSpaceChar c then some (skipWs r2) else none
           | [] => none
  let r4 ← dropLit (str "for") r3
  let r5 ← match skipWs r4 with
           | '(' :: r => some r
           | _ => none
  let (typeStr, counter, r6) ←
    (do
      let ri ← dropLit (str "int") (skipWs r5)
      let (c, r) ← parseCounterEq ri
      pure (str "int", c, r))
    <|>
    (do
      let (c, r) ← parseCounterEq (skipWs r5)
      pure (([] : Str), c, r))
  let (startB, r7) ← parseBoundSemi (skipWs r6)
  let r8 ← dropLit counter (skipWs r7)
  let (cmp, r9) ← match skipWs r8 with
                  | '<' :: '=' :: r => some (str "<=", r)
                  | '<' :: r => some (str "<", r)
                  | _ => none
  let (endB, r10) ← parseBoundSemi (skipWs r9)
  let r11 ← dropLit counter (skipWs r10)
  let (stepB, r12) ←
    if incForm then do
      let r ← dropLit (str "++") (skipWs r11)
      pure (([] : Str), r)
    else do
      let r ← dropLit (str "+=") (skipWs r11)
      let (ds, r') ← parseSignedDigits (skipWs r)
      pure (ds, r')
  let r13 ← match skipWs r12 with
            | ')' :: r => some r
            | _ => none
  let r14 ← match skipWs r13 with
            | '\x7b' :: r => some r
            | _ => none
  let (loopcode, rem) ← parseBody r14
  pure ({ matched := s.take (s.length - rem.length)
          type := typeStr
          counter := counter
          start := startB
          cmp := cmp
          endB := endB
          step := stepB
          loopcode := loopcode }, rem)

/-- `/\bbreak\s*;/` at the head of `s` (the word boundary before
`break` is checked by the caller). -/
def isBreakAt (s : Str) : Bool :=
  match dropLit (str "break") s with
  | some r =>
    match skipWs r with
    | ';' :: _ => true
    | _ => false
  | none => false

/-- Scan for `/\bbreak\s*;/`; `prevW` tells whether the previous
character was a word character (so that `\b` fails). -/
def hasBreakGo : Bool → Str → Bool
  | _, [] => false
  | prevW, c :: rest =>
    if !prevW && isBreakAt (c :: rest) then true
    else hasBreakGo (isWordChar c) rest

/-- `loopcode.match(/\bbreak\s*;/) !== null`. -/
def hasBreakMatch (l : Str) : Bool := hasBreakGo false l

/-- One inlined copy:
`` `{\n${counter} = ${i};\n${loopcode}\n}\n` ``. -/
def mkCopy (counter loopcode : Str) (i : Int) : Str :=
  str "\x7b\n" ++ counter ++ str " = " ++ intToStr i ++ str ";\n"
    ++ loopcode ++ str "\n\x7d\n"

/-- The copies emitted by `for(let i = istart; i < iend; i += istep)`.
The fuel bounds the iteration count; `(iend - istart).toNat` suffices
whenever `istep ≥ 1`. -/
def unrollBody (counter loopcode : Str) (istep : Int) :
    Nat → Int → Int → Str
  | 0, _, _ => []
  | fuel + 1, i, iend =>
    if i < iend then
      mkCopy counter loopcode i
        ++ unrollBody counter loopcode istep fuel (i + istep) iend
    else []

/-- The successive values the unrolled counter takes. -/
def counterValues (istep : Int) : Nat → Int → Int → List Int
  | 0, _, _ => []
  | fuel + 1, i, iend =>
    if i < iend then i :: counterValues istep fuel (i + istep) iend
    else []

/-- The `unroll` callback (`function unroll(match, type, counter,
start, cmp, end, step, loopcode)` with `this = defines`). -/
def unroll (defines : Defines) (m : UnrollMatch) : Except PErr Str :=
  let hasStart := jsFiniteNumber m.start || dhas defines m.start
  let hasEnd := jsFiniteNumber m.endB || dhas defines m.endB
  if !(hasStart && hasEnd) then
    if defines.length > 0 then .error .parseError
    else .ok m.matched
  else
    let istart := if dhas defines m.start then dget defines m.start
                  else jsParseInt m.start
    let iend := if dhas defines m.endB then dget defines m.endB
                else jsParseInt m.endB
    let istep := if m.step = [] then 1 else jsParseInt m.step
    if !(istart ≤ iend && istep > 0) then .error .assertionFailed
    else
      let scopeOpen := if hasBreakMatch m.loopcode
                       then str "switch(1) \x7b default:\n"
                       else str "\x7b\n"
      let iend' := iend + (if m.cmp = str "<=" then 1 else 0)
      .ok (scopeOpen ++ m.type ++ [' '] ++ m.counter ++ str ";\n"
            ++ unrollBody m.counter m.loopcode istep (iend' - istart).toNat
                 istart iend'
            ++ str "\x7d\n")

/-- One fuelled scanning step of `code.replace(unrollRegex[i], fn)`. -/
def unrollPassGo (incForm : Bool) (defines : Defines) :
    Nat → Str → Except PErr Str
  | 0, s => .ok s
  | _ + 1, [] => .ok []
  | fuel + 1, c :: rest =>
    match parseUnroll incForm (c :: rest) with
    | some (m, rem) => do
      let repl ← unroll defines m
      let tail ← unrollPassGo incForm defines fuel rem
      .ok (repl ++ tail)
    | none => do
      let tail ← unrollPassGo incForm defines fuel rest
      .ok (c :: tail)

/-- `unrollLoops(code, defines)`: apply the two loop regexes in order
(the second pass scans the output of the first). -/
def unrollLoops (defines : Defines) (code : Str) : Except PErr Str := do
  let c1 ← unrollPassGo true defines code.length code
  unrollPassGo false defines c1.length c1

/-!
### `generateGLSL`, both repository versions
-/

/-- `generateUnprocessedGLSL(defines, infix, prefix, suffix)`. -/
def generateUnprocessedGLSL (defines : Defines) (infixCode : Str)
    (pre suf : Option Str) : Str :=
  let parts :=
    (match pre with | some p => [p] | none => [])
    ++ defines.map (fun kv => str "#define " ++ kv.1 ++ [' '] ++ intToStr kv.2)
    ++ [infixCode]
    ++ (match suf with | some sfx => [sfx] | none => [])
  List.intercalate ['\n'] parts

/-- Shared resolution shape of both versions: user defines take
priority over the globally available constants. -/
def resolveConstants (globals defines : Defines) (name : Str) : Option Int :=
  if dhas defines name then some (dget defines name)
  else if dhas globals name then some (dget globals name)
  else none

/-- Error message of the 2024 version. -/
def mkErrV1 (name : Str) : Str := str "Undefined constant " ++ name

/-- Error message of the 2023 version. -/
def mkErrV4 (name : Str) : Str := str "Undefined constant: " ++ name

/-- `\n#error msg\n` trailer. -/
def errorTrailer (errors : List Str) : Str :=
  (errors.map (fun msg => str "\n#error " ++ msg ++ str "\n")).flatten

namespace V1

/-- `ShaderPreprocessor.generateGLSL` of the 2024 version
(`part_001`): comments, then constants, then includes, then loop
unrolling.  `globals` stands for the merged `basicConstants` and
`platformConstants` tables (environment data assembled in
`generateConstants`); `fs` is the external `shaders/include/` store;
the `Nat` is recursion fuel for the cycle-free `@include` recursion. -/
def generateGLSL (globals : Defines) (fs : FS) :
    Nat → Defines → Str → Option Str → Option Str → Except PErr Str
  | 0, _, _, _, _ => .error .outOfFuel
  | fuel + 1, defines, infixCode, pre, suf => do
    let annotated := generateUnprocessedGLSL defines infixCode pre suf
    let c1 := stripLineComments (stripBlockComments annotated)
    let (c2, errors) := substConstants (resolveConstants globals defines) mkErrV1 c1
    let c3 ← expandIncludes
      (fun filename => do
        let content ← readfileSync fs filename
        generateGLSL globals fs fuel defines content none none)
      c2
    let c4 ← unrollLoops defines c3
    .ok (c4 ++ errorTrailer errors)

end V1

namespace V4

/-- `ShaderPreprocessor.generateGLSL` of the 2023 version
(`part_004`): comments, then includes, then constants, then loop
unrolling.  `moduleConstants` stands for the module-level frozen
`constants` object. -/
def generateGLSL (moduleConstants : Defines) (fs : FS) :
    Nat → Defines → Str → Option Str → Option Str → Except PErr Str
  | 0, _, _, _, _ => .error .outOfFuel
  | fuel + 1, defines, infixCode, pre, suf => do
    let code := generateUnprocessedGLSL defines infixCode pre suf
    let c1 := stripLineComments (stripBlockComments code)
    let c2 ← expandIncludes
      (fun filename => do
        let content ← readfileSync fs filename
        generateGLSL moduleConstants fs fuel defines content none none)
      c1
    let (c3, errors) := substConstants (resolveConstants moduleConstants defines) mkErrV4 c2
    let c4 ← unrollLoops defines c3
    .ok (c4 ++ errorTrailer errors)

end V4

/-- The `#define` lines that `generateUnprocessedGLSL` places in front
of the infix code (one `#define KEY VALUE` line per entry, each ending
in a newline). -/
def definePreamble (defines : Defines) : Str :=
  (defines.map
    (fun kv => str "#define " ++ kv.1 ++ [' '] ++ intToStr kv.2 ++ ['\n'])).flatten

namespace V4

/-- Modelled from the spec: the claimed fixed stage order — comments,
then constants, then includes, then loop unrolling — applied to the
components of the 2023 version, for comparison with its actual
`generateGLSL` (which expands includes before substituting
constants). -/
def generateGLSLClaimedOrder (moduleConstants : Defines) (fs : FS) :
    Nat → Defines → Str → Option Str → Option Str → Except PErr Str
  | 0, _, _, _, _ => .error .outOfFuel
  | fuel + 1, defines, infixCode, pre, suf => do
    let code := generateUnprocessedGLSL defines infixCode pre suf
    let c1 := stripLineComments (stripBlockComments code)
    let (c2, errors) := substConstants (resolveConstants moduleConstants defines) mkErrV4 c1
    let c3 ← expandIncludes
      (fun filename => do
        let content ← readfileSync fs filename
        generateGLSLClaimedOrder moduleConstants fs fuel defines content none none)
      c2
    let c4 ← unrollLoops defines c3
    .ok (c4 ++ errorTrailer errors)

end V4

/-!
## Pipeline ports (`pipeline-port.js`, `pipeline-portspec.js`)

Modelled from the spec: `pipeline-message.js` is not part of the
sources at hand, so messages are modelled from the spec's data model —
a tagged union over the closed set
`{Nothing, Image, Keypoints, Vector, Matrix}` flowing by identity; a
message `isEmpty` exactly when its tag is `Nothing`, and `hasType t`
exactly when its tag is `t`.  The payload is an opaque identity.
-/

inductive MessageType where
  | Nothing
  | Image
  | Keypoints
  | Vector
  | Matrix
deriving DecidableEq, Repr

structure Message where
  tag : MessageType
  payload : Nat
deriving DecidableEq, Repr

def Message.isEmpty (m : Message) : Bool := m.tag = .Nothing

def Message.hasType (m : Message) (t : MessageType) : Bool := m.tag = t

/-- `EMPTY_MESSAGE = new SpeedyPipelineMessageWithNothing()`. -/
def EMPTY_MESSAGE : Message := ⟨.Nothing, 0⟩

/-- Errors raised by the port layer. -/
inductive PortError where
  | illegalArgument
  | illegalOperation
  | notSupported
deriving DecidableEq, Repr

/-- `SpeedyPipelinePortSpec`: an expected message type plus a message
validation predicate.  The constructor requires the expected type to
differ from `Nothing` (`Utils.assert`); theorems carry that as a
hypothesis where relevant. -/
structure PortSpec where
  expectedMessageType : MessageType
  isValidMessage : Message → Bool

/-- `SpeedyPipelinePortSpec.isCompatibleWith`. -/
def PortSpec.isCompatibleWith (s : PortSpec) (spec : PortSpec) : Bool :=
  s.expectedMessageType = spec.expectedMessageType

/-- `SpeedyPipelinePortSpec.accepts`. -/
def PortSpec.accepts (s : PortSpec) (message : Message) : Bool :=
  message.hasType s.expectedMessageType && s.isValidMessage message

/-- `SpeedyPipelineOutputPort`: spec plus the (at most one) stored
message, `EMPTY_MESSAGE` at construction. -/
structure OutputPort where
  spec : PortSpec
  message : Message

/-- A fresh output port (constructor state). -/
def OutputPort.new (spec : PortSpec) : OutputPort := ⟨spec, EMPTY_MESSAGE⟩

/-- `SpeedyPipelineInputPort`: spec, stored message, and the optional
incoming link.  The link snapshots the upstream port's state (message
identity flows by value in the model). -/
structure InputPort where
  spec : PortSpec
  message : Message
  incomingLink : Option OutputPort

/-- A fresh input port (constructor state: empty message, no link). -/
def InputPort.new (spec : PortSpec) : InputPort := ⟨spec, EMPTY_MESSAGE, none⟩

/-- A port is an input port or an output port. -/
inductive Port where
  | input (p : InputPort)
  | output (p : OutputPort)

def Port.isInputPort : Port → Bool
  | .input _ => true
  | .output _ => false

def Port.isOutputPort (p : Port) : Bool := !p.isInputPort

/-- The message stored in a port (base-class field `_message`). -/
def Port.message : Port → Message
  | .input p => p.message
  | .output p => p.message

/-- `SpeedyPipelinePort.clearMessage()`. -/
def Port.clearMessage : Port → Port
  | .input p => .input { p with message := EMPTY_MESSAGE }
  | .output p => .output { p with message := EMPTY_MESSAGE }

/-- `SpeedyPipelinePort.hasMessage()`. -/
def Port.hasMessage (p : Port) : Bool := !p.message.isEmpty

/-- `SpeedyPipelinePort.read()`. -/
def Port.read (p : Port) : Except PortError Message :=
  if p.message.isEmpty then .error .illegalOperation
  else .ok p.message

/-- `SpeedyPipelineInputPort.connectTo(port)`: the target must be an
output port with a compatible spec; on success the incoming link is
set, on failure it is untouched. -/
def InputPort.connectTo (self : InputPort) (port : Port) :
    Except PortError InputPort :=
  match port with
  | .input _ => .error .illegalArgument
  | .output o =>
    if !self.spec.isCompatibleWith o.spec then .error .illegalArgument
    else .ok { self with incomingLink := some o }

/-- `SpeedyPipelineOutputPort.write(message)`. -/
def OutputPort.write (self : OutputPort) (message : Message) :
    Except PortError OutputPort :=
  if !self.spec.accepts message then .error .illegalArgument
  else .ok { self with message := message }

/-- `SpeedyPipelineInputPort.pullMessage()`: read through the incoming
link, validate against this port's own spec, then store the message. -/
def InputPort.pullMessage (self : InputPort) :
    Except PortError (Message × InputPort) :=
  match self.incomingLink with
  | none => .error .illegalOperation
  | some up => do
    let message ← Port.read (.output up)
    if !self.spec.accepts message then .error .illegalArgument
    else .ok (message, { self with message := message })

/-!
## Keypoint decoding (`keypoints.glsl`)

A texel of the RGBA8 keypoint texture is four bytes; the shader sees
component `k` as the exactly-comparable value `k/255`, so
`ivec4(raw * 255.0)` recovers the bytes, `all(equal(raw, vec4(1)))`
holds exactly when all bytes are `255`, and
`all(equal(a + b, vec4(0)))` holds exactly when all eight bytes are
zero.  The real-valued decode maps of the included files
(`fixtovec2`, `decodeLod`) and the half-float decoder
(`decodeFloat16`, applied to the two score bytes) are kept as abstract
parameters: the claim only concerns the discrete classification and
which field the score comes from. -/

structure Pixel where
  r : Nat
  g : Nat
  b : Nat
  a : Nat
deriving DecidableEq, Repr

/-- `encodeNullKeypoint() = vec4(1.0)`. -/
def encodeNullKeypoint : Pixel := ⟨255, 255, 255, 255⟩

/-- `encodeDiscardedKeypoint() = vec4(0.0)`. -/
def encodeDiscardedKeypoint : Pixel := ⟨0, 0, 0, 0⟩

structure KeypointAddress where
  base : Int
  offset : Int
deriving DecidableEq, Repr

structure Keypoint where
  position : ℚ × ℚ
  lod : ℚ
  orientation : ℚ
  score : ℚ
  flags : Nat
deriving DecidableEq, Repr

def KPF_NULL : Nat := 1
def KPF_DISCARDED : Nat := 2

/-- `readKeypointData`: fetch the texel at the raster address, or the
null-keypoint encoding when the address is out of bounds.  GLSL `int`
division and modulo truncate toward zero (`Int.tdiv`, `Int.tmod`). -/
def readKeypointData (tex : Int → Int → Pixel) (encoderLength : Int)
    (address : KeypointAddress) : Pixel :=
  let rasterIndex := address.base + address.offset
  let data := tex (rasterIndex.tmod encoderLength) (rasterIndex.tdiv encoderLength)
  if rasterIndex < encoderLength * encoderLength then data else encodeNullKeypoint

/-- Decode parameters: the real-valued decode maps of the included
helper files, abstracted (see the section comment). -/
structure DecodeFns where
  fixtovec2 : Int → Int → ℚ × ℚ
  decodeLod : Nat → ℚ
  decodeOrientation : Nat → ℚ
  decodeFloat16 : Nat → Nat → ℚ

/-- `decodeKeypoint(encodedKeypoints, encoderLength, address)`. -/
def decodeKeypoint (fns : DecodeFns) (tex : Int → Int → Pixel)
    (encoderLength : Int) (address : KeypointAddress) : Keypoint :=
  let positionAddress : KeypointAddress := ⟨address.base, 0⟩
  let propertiesAddress : KeypointAddress := ⟨address.base, 1⟩
  let rawEncodedPosition := readKeypointData tex encoderLength positionAddress
  let position := fns.fixtovec2
    (rawEncodedPosition.r + 256 * rawEncodedPosition.g)
    (rawEncodedPosition.b + 256 * rawEncodedPosition.a)
  let rawEncodedProperties := readKeypointData tex encoderLength propertiesAddress
  let lod := fns.decodeLod rawEncodedProperties.r
  let orientation := fns.decodeOrientation rawEncodedProperties.g
  let score0 := fns.decodeFloat16 rawEncodedProperties.b rawEncodedProperties.a
  let isNull := rawEncodedPosition = encodeNullKeypoint
  let isDiscarded :=
    rawEncodedPosition.r + rawEncodedProperties.r = 0 ∧
    rawEncodedPosition.g + rawEncodedProperties.g = 0 ∧
    rawEncodedPosition.b + rawEncodedProperties.b = 0 ∧
    rawEncodedPosition.a + rawEncodedProperties.a = 0
  let score := if isNull ∨ isDiscarded then -1 else score0
  let flags := (if isNull then KPF_NULL else 0) |||
               (if isDiscarded then KPF_DISCARDED else 0)
  { position := position, lod := lod, orientation := orientation,
    score := score, flags := flags }

/-!
## Fence polling (`SpeedyTextureReader._clientWaitAsync`)

`sig k` is the result of the `k`-th `gl.clientWaitSync` call
(`true` when the status is `CONDITION_SATISFIED` or `ALREADY_SIGNALED`);
`errCode` is what `GLUtils.getError(gl)` reports when the budget runs
out.  The result records the outcome, the total number of polls, and
the `pollInterval` argument of every invocation. -/

inductive WaitOutcome where
  | resolved
  | rejectedTimeout (errCode : Nat)
deriving DecidableEq, Repr

structure WaitResult where
  outcome : WaitOutcome
  polls : Nat
  intervals : List Nat
deriving DecidableEq, Repr

/-- Default `pollInterval` parameter. -/
def defaultPollInterval : Nat := 10

/-- Default `remainingAttempts` parameter. -/
def defaultRemainingAttempts : Nat := 1000

/-- `_clientWaitAsync(gl, sync, flags, resolve, reject, pollInterval,
remainingAttempts)`, with `k` the index of the current poll. -/
def clientWaitAsync (sig : Nat → Bool) (errCode : Nat) :
    Nat → Nat → Nat → WaitResult
  | k, pollInterval, remaining =>
    let status := sig k
    let nextPollInterval := if pollInterval > 2 then pollInterval - 2 else 0
    match remaining with
    | 0 => ⟨.rejectedTimeout errCode, k + 1, [pollInterval]⟩
    | r + 1 =>
      if status then ⟨.resolved, k + 1, [pollInterval]⟩
      else
        let rest := clientWaitAsync sig errCode (k + 1) nextPollInterval r
        ⟨rest.outcome, rest.polls, pollInterval :: rest.intervals⟩

/-!
## Buffered asynchronous reads (`SpeedyTextureReader.readPixelsAsync`)

Small-step model of the producer/consumer mechanism of the buffered
path (`useBufferedDownloads`, live context), for the scenario of `M`
sequential reads each awaited before the next is issued.

Modelled from the spec: `Observable` (`utils/observable.js`) is not
among the sources at hand; per the spec's design notes its
subscribe/notify queues hand a one-shot continuation to the next
enqueue — `subscribe` registers a callback, `enqueue` pushes and then
notifies the registered callbacks in order, and each callback of
`readPixelsAsync` unsubscribes itself as it runs.

The event-loop tasks (the deferred seeding tick, and the completion of
each in-flight GPU transfer) are the nondeterministic transitions;
everything a JS task runs synchronously is one atomic transition.
Because every producer-queue callback `cb` is the same closure and
every consumer-queue callback resolves the promise of the read that
registered it, the subscriber lists are modelled as a counter
(`prodSubs`) and a FIFO of read identifiers (`consSubs`). -/

/-- Observable happenings, recorded in execution order. -/
inductive Event where
  | issue (readId : Nat)
  | seed
  | resolve (readId : Nat) (buf : Nat)
  | producerEnqueue (buf : Nat)
  | consumerEnqueue (buf : Nat)
  | startTransfer (buf : Nat)
  | complete (buf : Nat)
deriving DecidableEq, Repr

structure RState where
  producerQ : List Nat
  consumerQ : List Nat
  prodSubs : Nat
  consSubs : List Nat
  inFlight : List Nat
  issued : Nat
  resolved : Nat
  seedScheduled : Bool
  pcInitialized : Bool
deriving DecidableEq, Repr

/-- State at construction. -/
def initRState : RState :=
  ⟨[], [], 0, [], [], 0, 0, false, false⟩

/-- Fire the producer-queue callbacks: each unsubscribes, dequeues a
buffer index and starts its next transfer (`_readPixelsViaPBO`).  A
dequeue on an empty queue is the source's `IllegalOperationError`. -/
def fireCbs : Nat → List Nat → List Nat → List Event →
    Option (List Nat × List Nat × List Event)
  | 0, q, infl, acc => some (q, infl, acc)
  | _ + 1, [], _, _ => none
  | n + 1, i :: q, infl, acc =>
    fireCbs n q (infl ++ [i]) (acc ++ [.startTransfer i])

/-- `producer.enqueue(x)`: push, then notify. -/
def producerEnqueueFn (x : Nat) (st : RState) :
    Option (RState × List Event) :=
  match fireCbs st.prodSubs (st.producerQ ++ [x]) st.inFlight [] with
  | none => none
  | some (q, infl, evs) =>
    some ({ st with producerQ := q, prodSubs := 0, inFlight := infl },
          [.producerEnqueue x] ++ evs)

/-- Fire the consumer-queue callbacks: each unsubscribes, dequeues a
buffer index, resolves its read's promise with that buffer's data, and
only then enqueues the index back into the producer queue. -/
def fireConsumerSubs : List Nat → RState → List Event →
    Option (RState × List Event)
  | [], st, acc => some (st, acc)
  | readId :: rest, st, acc =>
    match st.consumerQ with
    | [] => none
    | idx :: q' =>
      let st1 := { st with consumerQ := q', resolved := st.resolved + 1 }
      match producerEnqueueFn idx st1 with
      | none => none
      | some (st2, evs) =>
        fireConsumerSubs rest st2 (acc ++ [.resolve readId idx] ++ evs)

/-- `consumer.enqueue(x)`: push, then notify. -/
def consumerEnqueueFn (x : Nat) (st : RState) :
    Option (RState × List Event) :=
  let st1 := { st with consumerQ := st.consumerQ ++ [x] }
  match fireConsumerSubs st1.consSubs { st1 with consSubs := [] } [] with
  | none => none
  | some (st2, evs) => some (st2, [.consumerEnqueue x] ++ evs)

/-- The synchronous body of one buffered `readPixelsAsync` call:
subscribe `cb` to the producer queue; then either run the consumer
callback at once (non-empty consumer queue) or register it; then
schedule the deferred seeding tick on first use. -/
def issueRead (st : RState) : Option (RState × List Event) :=
  let rid := st.issued
  let st1 := { st with prodSubs := st.prodSubs + 1, issued := st.issued + 1 }
  let afterCallback : Option (RState × List Event) :=
    match st1.consumerQ with
    | idx :: q' =>
      let st2 := { st1 with consumerQ := q', resolved := st1.resolved + 1 }
      match producerEnqueueFn idx st2 with
      | none => none
      | some (st3, evs) => some (st3, [.resolve rid idx] ++ evs)
    | [] => some ({ st1 with consSubs := st1.consSubs ++ [rid] }, [])
  match afterCallback with
  | none => none
  | some (st4, evs) =>
    let st5 :=
      if !st4.pcInitialized then
        { st4 with pcInitialized := true, seedScheduled := true }
      else st4
    some (st5, [.issue rid] ++ evs)

/-- The deferred seeding tick: enqueue all `n` buffer indices into the
consumer queue, in order. -/
def seedLoop : Nat → Nat → RState → List Event →
    Option (RState × List Event)
  | 0, _, st, acc => some (st, acc)
  | k + 1, i, st, acc =>
    match consumerEnqueueFn i st with
    | none => none
    | some (st', evs) => seedLoop k (i + 1) st' (acc ++ evs)

/-- Scheduler choices: the caller's next awaited read, the deferred
seeding task, or the completion of the in-flight transfer at position
`pos` (GPU completions may interleave arbitrarily). -/
inductive Choice where
  | issue
  | seed
  | complete (pos : Nat)
deriving DecidableEq, Repr

/-- One scheduled task.  `N` is the number of buffers, `M` the number
of sequential reads; a read is issued only once the previous one has
resolved. -/
def step (N M : Nat) (st : RState) : Choice → Option (RState × List Event)
  | .issue =>
    if st.issued < M ∧ st.resolved = st.issued then issueRead st else none
  | .seed =>
    if st.seedScheduled then
      match seedLoop N 0 { st with seedScheduled := false } [] with
      | none => none
      | some (st', evs) => some (st', [.seed] ++ evs)
    else none
  | .complete pos =>
    match st.inFlight[pos]? with
    | none => none
    | some i =>
      match consumerEnqueueFn i { st with inFlight := st.inFlight.eraseIdx pos } with
      | none => none
      | some (st', evs) => some (st', [.complete i] ++ evs)

/-- Run a list of scheduler choices from a state, accumulating the
trace. -/
def run (N M : Nat) : RState → List Event → List Choice →
    Option (RState × List Event)
  | st, tr, [] => some (st, tr)
  | st, tr, ch :: rest =>
    match step N M st ch with
    | none => none
    | some (st', evs) => run N M st' (tr ++ evs) rest

/-- Run from the constructor state. -/
def exec (N M : Nat) (chs : List Choice) : Option (RState × List Event) :=
  run N M initRState [] chs

/-- The `(readId, buffer)` pairs of the resolution events of a trace,
in order. -/
def resolves (tr : List Event) : List (Nat × Nat) :=
  tr.filterMap (fun e => match e with
    | .resolve r b => some (r, b)
    | _ => none)

/-- Buffer indices circulating in the mechanism. -/
def circulating (st : RState) : Nat :=
  st.producerQ.length + st.consumerQ.length + st.inFlight.length

/-- Producer-enqueue discipline of a trace: every push of a buffer
index back into the producer queue immediately follows the resolution
of a read with that buffer's data. -/
def PEadj (tr : List Event) : Prop :=
  ∀ k i, tr[k]? = some (Event.producerEnqueue i) →
    ∃ r j, j + 1 = k ∧ tr[j]? = some (Event.resolve r i)

/-- Reachability invariant of the buffered-read mechanism under
sequential awaited reads. -/
def Inv (N M : Nat) (st : RState) (tr : List Event) : Prop :=
  (resolves tr).map Prod.fst = List.range st.resolved
  ∧ st.consSubs = List.range' st.resolved (st.issued - st.resolved)
  ∧ st.prodSubs = st.issued - st.resolved
  ∧ st.resolved ≤ st.issued
  ∧ st.issued ≤ M
  ∧ st.issued - st.resolved ≤ 1
  ∧ st.producerQ = []
  ∧ circulating st
      = (if st.pcInitialized = true ∧ st.seedScheduled = false then N else 0)
  ∧ (st.seedScheduled = true → st.pcInitialized = true ∧ st.issued = 1
      ∧ st.resolved = 0 ∧ st.inFlight = [] ∧ st.consumerQ = [])
  ∧ (st.pcInitialized = false → st.issued = 0 ∧ st.resolved = 0
      ∧ st.inFlight = [] ∧ st.consumerQ = [])
  ∧ (st.pcInitialized = true → 1 ≤ st.issued)
  ∧ PEadj tr

/-- Steady shape reached between two sequential reads once seeding has
run: `j` reads issued and resolved, no pending continuations, all `N`
buffer indices split between the consumer queue and the in-flight
transfers, at least one transfer in flight. -/
def Good (N j : Nat) (st : RState) : Prop :=
  st.producerQ = [] ∧ st.prodSubs = 0 ∧ st.consSubs = []
  ∧ st.issued = j ∧ st.resolved = j
  ∧ st.seedScheduled = false ∧ st.pcInitialized = true
  ∧ st.consumerQ.length + st.inFlight.length = N
  ∧ st.inFlight ≠ []

/-- A schedule that drives `M` sequential awaited reads to completion:
first read, then the deferred seeding tick, then for each further read
the read itself and one transfer completion. -/
def canonSchedule : Nat → List Choice
  | 0 => []
  | m + 1 => [Choice.issue, Choice.seed] ++
      (List.replicate m ([Choice.issue, Choice.complete 0])).flatten

/-!
# Theorems
-/

/-- C10: for every pipeline port, `read()` throws an
`IllegalOperationError` exactly when the port holds the empty
(`Nothing`) message — the state at construction and after
`clearMessage()` — and otherwise returns the stored message unchanged;
`hasMessage()` is true exactly when `read()` does not throw. -/
theorem claim_C10 (p : Port) (spec : PortSpec) :
    (Port.read p = Except.error PortError.illegalOperation ↔
      (Port.message p).isEmpty = true)
    ∧ ((Port.message p).isEmpty = false → Port.read p = Except.ok (Port.message p))
    ∧ (Port.hasMessage p = true ↔ Port.read p = Except.ok (Port.message p))
    ∧ Port.message (Port.input (InputPort.new spec)) = EMPTY_MESSAGE
    ∧ Port.message (Port.output (OutputPort.new spec)) = EMPTY_MESSAGE
    ∧ Port.message (Port.clearMessage p) = EMPTY_MESSAGE
    ∧ EMPTY_MESSAGE.isEmpty = true := by
  refine ⟨?_, ?_, ?_, rfl, rfl, ?_, rfl⟩
  · cases h : (Port.message p).isEmpty <;> simp [Port.read, h]
  · intro h
    simp [Port.read, h]
  · cases h : (Port.message p).isEmpty <;> simp [Port.read, Port.hasMessage, h]
  · cases p <;> rfl

/-- Witness for C10 at a concrete output port holding an Image
message. -/
theorem claim_C10_witness :
    Port.read (Port.output ⟨⟨MessageType.Image, fun _ => true⟩,
        ⟨MessageType.Image, 5⟩⟩)
      = Except.ok ⟨MessageType.Image, 5⟩ :=
  (claim_C10 (Port.output ⟨⟨MessageType.Image, fun _ => true⟩,
      ⟨MessageType.Image, 5⟩⟩)
    ⟨MessageType.Image, fun _ => true⟩).2.1 rfl

/-- C5: connecting an input port to an output port whose specs expect
distinct message tags raises an error at connect time (leaving the
incoming link untouched: the assignment is never reached); the
connection succeeds exactly when the target of
`InputPort.connectTo` is an output port whose spec expects the
identical message tag, and then the incoming link is set. -/
theorem claim_C5 (inp : InputPort) (outp : OutputPort) (port : Port) :
    (inp.spec.expectedMessageType ≠ outp.spec.expectedMessageType →
      inp.connectTo (Port.output outp) = Except.error PortError.illegalArgument)
    ∧ ((∃ inp', inp.connectTo port = Except.ok inp') ↔
      (∃ o, port = Port.output o ∧
        inp.spec.expectedMessageType = o.spec.expectedMessageType))
    ∧ (inp.spec.expectedMessageType = outp.spec.expectedMessageType →
      inp.connectTo (Port.output outp)
        = Except.ok { inp with incomingLink := some outp }) := by
  refine ⟨?_, ?_, ?_⟩
  · intro h
    simp [InputPort.connectTo, PortSpec.isCompatibleWith, h]
  · constructor
    · rintro ⟨inp', h⟩
      cases port with
      | input q => simp [InputPort.connectTo] at h
      | output o =>
        refine ⟨o, rfl, ?_⟩
        by_contra hne
        simp [InputPort.connectTo, PortSpec.isCompatibleWith, hne] at h
    · rintro ⟨o, rfl, heq⟩
      refine ⟨{ inp with incomingLink := some o }, ?_⟩
      simp [InputPort.connectTo, PortSpec.isCompatibleWith, heq]
  · intro h
    simp [InputPort.connectTo, PortSpec.isCompatibleWith, h]

/-- Witness for C5: an Image-expecting input port refuses a
Keypoints-producing output port, and accepts an Image-producing one. -/
theorem claim_C5_witness :
    (InputPort.new ⟨MessageType.Image, fun _ => true⟩).connectTo
        (Port.output (OutputPort.new ⟨MessageType.Keypoints, fun _ => true⟩))
      = Except.error PortError.illegalArgument
    ∧ (InputPort.new ⟨MessageType.Image, fun _ => true⟩).connectTo
        (Port.output (OutputPort.new ⟨MessageType.Image, fun _ => true⟩))
      = Except.ok { InputPort.new ⟨MessageType.Image, fun _ => true⟩ with
          incomingLink := some (OutputPort.new ⟨MessageType.Image, fun _ => true⟩) } :=
  ⟨(claim_C5 (InputPort.new ⟨MessageType.Image, fun _ => true⟩)
      (OutputPort.new ⟨MessageType.Keypoints, fun _ => true⟩)
      (Port.output (OutputPort.new ⟨MessageType.Keypoints, fun _ => true⟩))).1
    (by simp [InputPort.new, OutputPort.new]),
   (claim_C5 (InputPort.new ⟨MessageType.Image, fun _ => true⟩)
      (OutputPort.new ⟨MessageType.Image, fun _ => true⟩)
      (Port.output (OutputPort.new ⟨MessageType.Image, fun _ => true⟩))).2.2 rfl⟩

/-- C6 as stated is refuted here: the downstream input port's spec IS
checked later than the write.  A message accepted by the output port's
spec is written successfully, yet pulling it through the link errors or
succeeds depending solely on the input port's payload predicate — the
predicate runs at pull (read) time. -/
theorem claim_C6_counterexample :
    ((OutputPort.new ⟨MessageType.Image, fun _ => true⟩).write
        ⟨MessageType.Image, 0⟩
      = Except.ok ⟨⟨MessageType.Image, fun _ => true⟩, ⟨MessageType.Image, 0⟩⟩)
    ∧ ((⟨⟨MessageType.Image, fun _ => true⟩, EMPTY_MESSAGE,
        some ⟨⟨MessageType.Image, fun _ => true⟩, ⟨MessageType.Image, 0⟩⟩⟩ :
          InputPort).pullMessage
      = Except.ok (⟨MessageType.Image, 0⟩,
          ⟨⟨MessageType.Image, fun _ => true⟩, ⟨MessageType.Image, 0⟩,
            some ⟨⟨MessageType.Image, fun _ => true⟩, ⟨MessageType.Image, 0⟩⟩⟩))
    ∧ ((⟨⟨MessageType.Image, fun _ => false⟩, EMPTY_MESSAGE,
        some ⟨⟨MessageType.Image, fun _ => true⟩, ⟨MessageType.Image, 0⟩⟩⟩ :
          InputPort).pullMessage
      = Except.error PortError.illegalArgument) :=
  ⟨rfl, rfl, rfl⟩

/-- C6 amended: `write(m)` throws exactly when the output port's own
spec does not accept `m` (wrong tag or failed predicate), and the
stored message is unchanged when it throws (the throw precedes the
assignment); however the downstream input port's spec re-validates the
message when it is pulled, so a failed input-side predicate raises at
pull (read) time rather than at write time. -/
theorem claim_C6 (out : OutputPort) (m : Message) (inp : InputPort) :
    ((∃ o', out.write m = Except.ok o') ↔ out.spec.accepts m = true)
    ∧ (out.spec.accepts m = false →
      out.write m = Except.error PortError.illegalArgument)
    ∧ (out.spec.accepts m = true →
      out.write m = Except.ok { out with message := m })
    ∧ (inp.incomingLink = some out → out.message = m → m.isEmpty = false →
      inp.spec.accepts m = false →
      inp.pullMessage = Except.error PortError.illegalArgument)
    ∧ (inp.incomingLink = some out → out.message = m → m.isEmpty = false →
      inp.spec.accepts m = true →
      inp.pullMessage = Except.ok (m, { inp with message := m })) := by
  refine ⟨?_, ?_, ?_, ?_, ?_⟩
  · constructor
    · rintro ⟨o', h⟩
      by_contra hne
      simp [OutputPort.write, Bool.not_eq_true] at h hne
      simp [hne] at h
    · intro h
      refine ⟨{ out with message := m }, ?_⟩
      simp [OutputPort.write, h]
  · intro h
    simp [OutputPort.write, h]
  · intro h
    simp [OutputPort.write, h]
  · intro hlink hmsg hne hacc
    subst hmsg
    simp [InputPort.pullMessage, hlink, Port.read, Port.message, hne, hacc,
      Bind.bind, Except.bind]
  · intro hlink hmsg hne hacc
    subst hmsg
    simp [InputPort.pullMessage, hlink, Port.read, Port.message, hne, hacc,
      Bind.bind, Except.bind]

/-- C7: a decoded record is classified as the terminator (null)
exactly when all four position bytes are maximal — equivalently, both
16-bit fixed-point coordinates equal `0xFFFF` — and as discarded
exactly when the whole 8-byte header is zero; in both cases the
decoded score is `-1.0`, and otherwise the score is decoded from the
16-bit half-float field (bytes `b`,`a` of the properties pixel). -/
theorem claim_C7 (fns : DecodeFns) (tex : Int → Int → Pixel) (len : Int)
    (addr : KeypointAddress)
    (hr : (readKeypointData tex len ⟨addr.base, 0⟩).r ≤ 255)
    (hg : (readKeypointData tex len ⟨addr.base, 0⟩).g ≤ 255)
    (hb : (readKeypointData tex len ⟨addr.base, 0⟩).b ≤ 255)
    (ha : (readKeypointData tex len ⟨addr.base, 0⟩).a ≤ 255) :
    ((decodeKeypoint fns tex len addr).flags &&& KPF_NULL ≠ 0 ↔
      ((readKeypointData tex len ⟨addr.base, 0⟩).r +
        256 * (readKeypointData tex len ⟨addr.base, 0⟩).g = 65535 ∧
       (readKeypointData tex len ⟨addr.base, 0⟩).b +
        256 * (readKeypointData tex len ⟨addr.base, 0⟩).a = 65535))
    ∧ ((decodeKeypoint fns tex len addr).flags &&& KPF_DISCARDED ≠ 0 ↔
      (readKeypointData tex len ⟨addr.base, 0⟩ = ⟨0, 0, 0, 0⟩ ∧
       readKeypointData tex len ⟨addr.base, 1⟩ = ⟨0, 0, 0, 0⟩))
    ∧ ((decodeKeypoint fns tex len addr).flags ≠ 0 →
      (decodeKeypoint fns tex len addr).score = -1)
    ∧ ((decodeKeypoint fns tex len addr).flags = 0 →
      (decodeKeypoint fns tex len addr).score =
        fns.decodeFloat16 (readKeypointData tex len ⟨addr.base, 1⟩).b
          (readKeypointData tex len ⟨addr.base, 1⟩).a) := by
  simp only [decodeKeypoint]
  generalize hP : readKeypointData tex len ⟨addr.base, 0⟩ = P at *
  generalize hQ : readKeypointData tex len ⟨addr.base, 1⟩ = Q at *
  obtain ⟨pr, pg, pb, pa⟩ := P
  obtain ⟨qr, qg, qb, qa⟩ := Q
  simp only at hr hg hb ha ⊢
  by_cases h1 : (Pixel.mk pr pg pb pa) = encodeNullKeypoint
  · have h1' : pr = 255 ∧ pg = 255 ∧ pb = 255 ∧ pa = 255 := by
      simpa [encodeNullKeypoint, Pixel.mk.injEq] using h1
    have h2 : ¬(pr + qr = 0 ∧ pg + qg = 0 ∧ pb + qb = 0 ∧ pa + qa = 0) := by
      omega
    rw [if_pos h1, if_neg h2, if_pos (Or.inl h1)]
    refine ⟨?_, ?_, ?_, ?_⟩
    · simp [KPF_NULL, KPF_DISCARDED]
      omega
    · simp [KPF_NULL, KPF_DISCARDED, Pixel.mk.injEq]
      omega
    · intro _; rfl
    · intro hc
      simp [KPF_NULL, KPF_DISCARDED] at hc
  · by_cases h2 : pr + qr = 0 ∧ pg + qg = 0 ∧ pb + qb = 0 ∧ pa + qa = 0
    · rw [if_neg h1, if_pos h2, if_pos (Or.inr h2)]
      have h1' : ¬(pr = 255 ∧ pg = 255 ∧ pb = 255 ∧ pa = 255) := by
        intro hc
        exact h1 (by simp [encodeNullKeypoint, Pixel.mk.injEq]; omega)
      refine ⟨?_, ?_, ?_, ?_⟩
      · simp [KPF_NULL, KPF_DISCARDED]
        omega
      · simp [KPF_NULL, KPF_DISCARDED, Pixel.mk.injEq]
        omega
      · intro _; rfl
      · intro hc
        simp [KPF_NULL, KPF_DISCARDED] at hc
    · have hor : ¬((Pixel.mk pr pg pb pa) = encodeNullKeypoint ∨
          (pr + qr = 0 ∧ pg + qg = 0 ∧ pb + qb = 0 ∧ pa + qa = 0)) := by
        tauto
      rw [if_neg h1, if_neg h2, if_neg hor]
      have h1' : ¬(pr = 255 ∧ pg = 255 ∧ pb = 255 ∧ pa = 255) := by
        intro hc
        exact h1 (by simp [encodeNullKeypoint, Pixel.mk.injEq]; omega)
      refine ⟨?_, ?_, ?_, ?_⟩
      · simp [KPF_NULL, KPF_DISCARDED]
        omega
      · simp [KPF_NULL, KPF_DISCARDED, Pixel.mk.injEq]
        omega
      · intro hc
        simp [KPF_NULL, KPF_DISCARDED] at hc
      · intro _; rfl

/-- Witness for C7: an all-maximal position pixel decodes to a null
keypoint whose score is `-1`. -/
theorem claim_C7_witness :
    (decodeKeypoint
        ⟨fun _ _ => (0, 0), fun _ => 0, fun _ => 0, fun _ _ => 0⟩
        (fun _ _ => ⟨255, 255, 255, 255⟩) 10 ⟨0, 0⟩).flags &&& KPF_NULL ≠ 0 :=
  (claim_C7 ⟨fun _ _ => (0, 0), fun _ => 0, fun _ => 0, fun _ _ => 0⟩
      (fun _ _ => ⟨255, 255, 255, 255⟩) 10 ⟨0, 0⟩
      (by decide) (by decide) (by decide) (by decide)).1.mpr
    ⟨by decide, by decide⟩

section FencePolling

variable (sig : Nat → Bool) (e : Nat)

lemma cwa_polls_le : ∀ (R k p : Nat),
    (clientWaitAsync sig e k p R).polls ≤ k + R + 1 := by
  intro R
  induction R with
  | zero => intro k p; simp [clientWaitAsync]
  | succ r ih =>
    intro k p
    simp only [clientWaitAsync]
    cases hs : sig k with
    | true => simp
    | false =>
      simp
      have := ih (k + 1) (if 2 < p then p - 2 else 0)
      omega

lemma cwa_reject : ∀ (R k p : Nat),
    (∀ j, k ≤ j → j < k + R → sig j = false) →
    (clientWaitAsync sig e k p R).outcome = WaitOutcome.rejectedTimeout e
    ∧ (clientWaitAsync sig e k p R).polls = k + R + 1 := by
  intro R
  induction R with
  | zero => intro k p _; simp [clientWaitAsync]
  | succ r ih =>
    intro k p h
    have hs : sig k = false := h k (le_refl k) (by omega)
    simp only [clientWaitAsync, hs]
    have := ih (k + 1) (if 2 < p then p - 2 else 0)
      (fun j hj hj2 => h j (by omega) (by omega))
    simp [this.1, this.2]
    omega

lemma cwa_resolve : ∀ (R k p j : Nat), k ≤ j → j < k + R → sig j = true →
    (∀ i, k ≤ i → i < j → sig i = false) →
    (clientWaitAsync sig e k p R).outcome = WaitOutcome.resolved
    ∧ (clientWaitAsync sig e k p R).polls = j + 1 := by
  intro R
  induction R with
  | zero => intro k p j h1 h2; omega
  | succ r ih =>
    intro k p j h1 h2 hsig hmin
    rcases Nat.eq_or_lt_of_le h1 with heq | hlt
    · subst heq
      simp [clientWaitAsync, hsig]
    · have hs : sig k = false := hmin k (le_refl k) hlt
      simp only [clientWaitAsync, hs]
      have := ih (k + 1) (if 2 < p then p - 2 else 0) j hlt (by omega) hsig
        (fun i hi hi2 => hmin i (by omega) hi2)
      simp [this.1, this.2]

lemma cwa_polls_ge : ∀ (R k p : Nat),
    k + 1 ≤ (clientWaitAsync sig e k p R).polls := by
  intro R
  induction R with
  | zero => intro k p; simp [clientWaitAsync]
  | succ r ih =>
    intro k p
    simp only [clientWaitAsync]
    cases hs : sig k with
    | true => simp
    | false =>
      simp only [Bool.false_eq_true, if_false, gt_iff_lt]
      have := ih (k + 1) (if 2 < p then p - 2 else 0)
      omega

lemma cwa_intervals : ∀ (R k p : Nat),
    (clientWaitAsync sig e k p R).intervals.head? = some p
    ∧ (clientWaitAsync sig e k p R).intervals.length
        = (clientWaitAsync sig e k p R).polls - k
    ∧ List.Chain' (fun a b => b = (if 2 < a then a - 2 else 0))
        (clientWaitAsync sig e k p R).intervals := by
  intro R
  induction R with
  | zero => intro k p; simp [clientWaitAsync]
  | succ r ih =>
    intro k p
    simp only [clientWaitAsync]
    cases hs : sig k with
    | true => simp
    | false =>
      simp only [Bool.false_eq_true, if_false, gt_iff_lt]
      have h := ih (k + 1) (if 2 < p then p - 2 else 0)
      have hpolls := cwa_polls_ge sig e r (k + 1) (if 2 < p then p - 2 else 0)
      refine ⟨rfl, ?_, ?_⟩
      · simp only [List.length_cons, h.2.1]
        omega
      · rw [List.chain'_cons']
        refine ⟨?_, h.2.2⟩
        intro b hbmem
        rw [h.1] at hbmem
        simp only [Option.mem_def, Option.some.injEq] at hbmem
        omega

end FencePolling

/-- C8: `_clientWaitAsync` with attempt budget `R` performs at most
`R + 1` polls; it rejects with a `TimeoutError` carrying the device
error code once every budgeted poll has failed, resolves at the first
signalled poll within the budget, and its poll interval shrinks by
2 ms per poll down to 0 (hence is non-increasing); the default budget
is 1000 attempts (default interval 10 ms). -/
theorem claim_C8 (sig : Nat → Bool) (errCode p R : Nat) :
    (clientWaitAsync sig errCode 0 p R).polls ≤ R + 1
    ∧ ((∀ j, j < R → sig j = false) →
      (clientWaitAsync sig errCode 0 p R).outcome
          = WaitOutcome.rejectedTimeout errCode
        ∧ (clientWaitAsync sig errCode 0 p R).polls = R + 1)
    ∧ (∀ k, k < R → sig k = true → (∀ j, j < k → sig j = false) →
      (clientWaitAsync sig errCode 0 p R).outcome = WaitOutcome.resolved
        ∧ (clientWaitAsync sig errCode 0 p R).polls = k + 1)
    ∧ (clientWaitAsync sig errCode 0 p R).intervals.head? = some p
    ∧ (clientWaitAsync sig errCode 0 p R).intervals.length
        = (clientWaitAsync sig errCode 0 p R).polls
    ∧ List.Chain' (fun a b => b = (if 2 < a then a - 2 else 0) ∧ b ≤ a)
        (clientWaitAsync sig errCode 0 p R).intervals
    ∧ defaultPollInterval = 10
    ∧ defaultRemainingAttempts = 1000 := by
  refine ⟨?_, ?_, ?_, ?_, ?_, ?_, rfl, rfl⟩
  · have := cwa_polls_le sig errCode R 0 p
    omega
  · intro h
    have := cwa_reject sig errCode R 0 p (fun j _ hj2 => h j (by omega))
    exact ⟨this.1, by omega⟩
  · intro k hk hsig hmin
    exact cwa_resolve sig errCode R 0 p k (by omega) (by omega) hsig
      (fun i _ h2 => hmin i h2)
  · exact (cwa_intervals sig errCode R 0 p).1
  · have := (cwa_intervals sig errCode R 0 p).2.1
    omega
  · exact ((cwa_intervals sig errCode R 0 p).2.2).imp
      (fun a b hb => ⟨hb, by rw [hb]; split <;> omega⟩)

/-- Witness for C8: a fence signalling at the third poll resolves
after 3 polls; a never-signalling fence with budget 2 times out after
3 polls. -/
theorem claim_C8_witness :
    (clientWaitAsync (fun k => decide (k = 2)) 7 0 10 1000).outcome
        = WaitOutcome.resolved
    ∧ (clientWaitAsync (fun k => decide (k = 2)) 7 0 10 1000).polls = 3
    ∧ (clientWaitAsync (fun _ => false) 7 0 10 2).outcome
        = WaitOutcome.rejectedTimeout 7
    ∧ (clientWaitAsync (fun _ => false) 7 0 10 2).polls = 3 := by
  have h1 := (claim_C8 (fun k => decide (k = 2)) 7 10 1000).2.2.1 2
    (by omega) (by decide)
    (fun j hj => by simp only [decide_eq_false_iff_not]; omega)
  have h2 := (claim_C8 (fun _ => false) 7 10 2).2.1 (fun j _ => rfl)
  exact ⟨h1.1, h1.2, h2.1, h2.2⟩

/-- C4: when a loop limit resolves neither as a finite number nor as a
symbol-table entry, `unroll` leaves the matched loop text untouched
exactly when the symbol table is empty, and raises a parse error when
it is non-empty. -/
theorem claim_C4 (defines : Defines) (m : UnrollMatch)
    (h : (jsFiniteNumber m.start || dhas defines m.start) = false
      ∨ (jsFiniteNumber m.endB || dhas defines m.endB) = false) :
    (defines = [] → unroll defines m = Except.ok m.matched)
    ∧ (defines ≠ [] → unroll defines m = Except.error PErr.parseError)
    ∧ (unroll defines m = Except.ok m.matched ↔ defines = []) := by
  have hb : ((jsFiniteNumber m.start || dhas defines m.start)
      && (jsFiniteNumber m.endB || dhas defines m.endB)) = false := by
    rcases h with h | h <;> simp [h]
  refine ⟨?_, ?_, ?_⟩
  · intro hd
    subst hd
    simp [unroll, hb]
  · intro hd
    have : 0 < defines.length := by
      cases defines with
      | nil => exact absurd rfl hd
      | cons a l => simp
    simp [unroll, hb, this]
  · constructor
    · intro hok
      by_contra hd
      have : 0 < defines.length := by
        cases defines with
        | nil => exact absurd rfl hd
        | cons a l => simp
      simp [unroll, hb, this] at hok
    · intro hd
      subst hd
      simp [unroll, hb]

/-- Witness for C4: the unresolvable end limit `N` defers the loop
with an empty table and raises a parse error with a non-empty one. -/
theorem claim_C4_witness :
    unroll [] ⟨str "@unroll for(int i=0;i<N;i++)\x7bX;\x7d", str "int",
        str "i", str "0", str "<", str "N", [], str "X;"⟩
      = Except.ok (str "@unroll for(int i=0;i<N;i++)\x7bX;\x7d")
    ∧ unroll [(str "A", 1)] ⟨str "@unroll for(int i=0;i<N;i++)\x7bX;\x7d",
        str "int", str "i", str "0", str "<", str "N", [], str "X;"⟩
      = Except.error PErr.parseError :=
  ⟨(claim_C4 [] ⟨str "@unroll for(int i=0;i<N;i++)\x7bX;\x7d", str "int",
      str "i", str "0", str "<", str "N", [], str "X;"⟩
      (Or.inr (by decide))).1 rfl,
   (claim_C4 [(str "A", 1)] ⟨str "@unroll for(int i=0;i<N;i++)\x7bX;\x7d",
      str "int", str "i", str "0", str "<", str "N", [], str "X;"⟩
      (Or.inr (by decide))).2.1 (by simp)⟩

section UnrollCharacterization

lemma unrollBody_eq (c l : Str) (istep : Int) : ∀ (fuel : Nat) (i e : Int),
    unrollBody c l istep fuel i e
      = ((counterValues istep fuel i e).map (mkCopy c l)).flatten := by
  intro fuel
  induction fuel with
  | zero => intro i e; simp [unrollBody, counterValues]
  | succ f ih =>
    intro i e
    simp only [unrollBody, counterValues]
    by_cases h : i < e
    · simp [h, ih]
    · simp [h]

lemma counterValues_get (istep : Int) : ∀ (fuel : Nat) (i e : Int) (k : Nat),
    k < (counterValues istep fuel i e).length →
    (counterValues istep fuel i e)[k]? = some (i + k * istep) := by
  intro fuel
  induction fuel with
  | zero => intro i e k hk; simp [counterValues] at hk
  | succ f ih =>
    intro i e k hk
    simp only [counterValues] at hk ⊢
    by_cases h : i < e
    · simp only [h, if_true] at hk ⊢
      cases k with
      | zero => simp
      | succ k' =>
        simp only [List.length_cons] at hk
        have := ih (i + istep) e k' (by omega)
        simp only [List.getElem?_cons_succ, this]
        congr 1
        push_cast
        ring
    · simp [h] at hk

lemma counterValues_lt (istep : Int) : ∀ (fuel : Nat) (i e : Int),
    ∀ v ∈ counterValues istep fuel i e, v < e := by
  intro fuel
  induction fuel with
  | zero => intro i e v hv; simp [counterValues] at hv
  | succ f ih =>
    intro i e v hv
    simp only [counterValues] at hv
    by_cases h : i < e
    · simp only [h, if_true, List.mem_cons] at hv
      rcases hv with rfl | hv
      · exact h
      · exact ih _ _ _ hv
    · simp [h] at hv

lemma counterValues_complete (istep : Int) (hstep : 0 < istep) :
    ∀ (fuel : Nat) (i e : Int), (e - i).toNat ≤ fuel →
    e ≤ i + (counterValues istep fuel i e).length * istep := by
  intro fuel
  induction fuel with
  | zero =>
    intro i e hf
    simp only [counterValues, List.length_nil]
    omega
  | succ f ih =>
    intro i e hf
    simp only [counterValues]
    by_cases h : i < e
    · simp only [h, if_true, List.length_cons]
      have h2 := ih (i + istep) e (by omega)
      have h3 : ((counterValues istep f (i + istep) e).length + 1 : Int) * istep
          = (counterValues istep f (i + istep) e).length * istep + istep := by
        ring
      push_cast at h3 ⊢
      linarith
    · simp only [h, if_false, List.length_nil]
      omega

end UnrollCharacterization

/-- C3: `@unroll for(int i=0;i<3;i++){X(i);}` expands to exactly 3
inlined copies with `i = 0, 1, 2` in order inside a fresh scope, and
the `i<=2` variant yields the same 3 copies; in general, for resolved
limits and positive step, one copy is emitted per counter value from
START up to the bound (`END` for `<`, `END + 1` for `<=`), stepping by
STEP, and a body containing `break` is wrapped in a one-shot
`switch(1) { default:` dispatch scope. -/
theorem claim_C3 :
    (V1.generateGLSL [] [] 1 []
        (str "@unroll for(int i=0;i<3;i++)\x7bX(i);\x7d") none none
      = Except.ok (str "\x7b\nint i;\n\x7b\ni = 0;\nX(i);\n\x7d\n\x7b\ni = 1;\nX(i);\n\x7d\n\x7b\ni = 2;\nX(i);\n\x7d\n\x7d\n"))
    ∧ (V1.generateGLSL [] [] 1 []
        (str "@unroll for(int i=0;i<=2;i++)\x7bX(i);\x7d") none none
      = Except.ok (str "\x7b\nint i;\n\x7b\ni = 0;\nX(i);\n\x7d\n\x7b\ni = 1;\nX(i);\n\x7d\n\x7b\ni = 2;\nX(i);\n\x7d\n\x7d\n"))
    ∧ (∀ (defines : Defines) (m : UnrollMatch) (istart iend istep bound : Int),
      (jsFiniteNumber m.start || dhas defines m.start) = true →
      (jsFiniteNumber m.endB || dhas defines m.endB) = true →
      istart = (if dhas defines m.start then dget defines m.start
                else jsParseInt m.start) →
      iend = (if dhas defines m.endB then dget defines m.endB
              else jsParseInt m.endB) →
      istep = (if m.step = [] then 1 else jsParseInt m.step) →
      bound = iend + (if m.cmp = str "<=" then 1 else 0) →
      istart ≤ iend → 0 < istep →
      (unroll defines m = Except.ok
        ((if hasBreakMatch m.loopcode then str "switch(1) \x7b default:\n"
          else str "\x7b\n")
          ++ m.type ++ [' '] ++ m.counter ++ str ";\n"
          ++ ((counterValues istep (bound - istart).toNat istart bound).map
              (mkCopy m.counter m.loopcode)).flatten
          ++ str "\x7d\n"))
      ∧ (∀ k, k < (counterValues istep (bound - istart).toNat istart bound).length →
          (counterValues istep (bound - istart).toNat istart bound)[k]?
            = some (istart + k * istep))
      ∧ (∀ v ∈ counterValues istep (bound - istart).toNat istart bound, v < bound)
      ∧ bound ≤ istart +
          (counterValues istep (bound - istart).toNat istart bound).length * istep) := by
  refine ⟨rfl, rfl, ?_⟩
  intro defines m istart iend istep bound h1 h2 h3 h4 h5 h6 h7 h8
  subst h3 h4 h5 h6
  refine ⟨?_, ?_, ?_, ?_⟩
  · simp [unroll, h1, h2, decide_eq_true h7, decide_eq_true h8, unrollBody_eq]
  · intro k hk
    exact counterValues_get _ _ _ _ k hk
  · intro v hv
    exact counterValues_lt _ _ _ _ v hv
  · exact counterValues_complete _ h8 _ _ _ (le_refl _)

/-- Witness for C3: the general characterization applied to the
`i<3` loop with an empty symbol table, evaluated to the literal
expansion. -/
theorem claim_C3_witness :
    unroll [] ⟨str "@unroll for(int i=0;i<3;i++)\x7bX(i);\x7d", str "int",
        str "i", str "0", str "<", str "3", [], str "X(i);"⟩
      = Except.ok (str "\x7b\nint i;\n\x7b\ni = 0;\nX(i);\n\x7d\n\x7b\ni = 1;\nX(i);\n\x7d\n\x7b\ni = 2;\nX(i);\n\x7d\n\x7d\n") :=
  ((claim_C3.2.2 [] ⟨str "@unroll for(int i=0;i<3;i++)\x7bX(i);\x7d",
      str "int", str "i", str "0", str "<", str "3", [], str "X(i);"⟩
      0 3 1 3 (by decide) (by decide) (by decide) (by decide) (by decide)
      (by decide) (by decide) (by decide)).1).trans
    (congrArg Except.ok (by decide))

lemma intercalate_nl (x : Str) (xs : List Str) (h : xs ≠ []) :
    List.intercalate ['\n'] (x :: xs) = x ++ '\n' :: List.intercalate ['\n'] xs := by
  cases xs with
  | nil => exact absurd rfl h
  | cons y ys =>
    simp [List.intercalate, List.intersperse_cons_cons]

lemma generateUnprocessedGLSL_none (d : Defines) (t : Str) :
    generateUnprocessedGLSL d t none none = definePreamble d ++ t := by
  induction d with
  | nil => simp [generateUnprocessedGLSL, definePreamble, List.intercalate]
  | cons kv d' ih =>
    have hne : d'.map (fun kv => str "#define " ++ kv.1 ++ [' '] ++ intToStr kv.2)
        ++ [t] ≠ [] := by simp
    simp only [generateUnprocessedGLSL, List.nil_append, List.map_cons,
      List.cons_append, List.append_nil] at ih ⊢
    rw [intercalate_nl _ _ hne, ih]
    simp [definePreamble]

/-- C2 as stated is refuted here: `generateGLSL` prepends one
`#define KEY VALUE` line per symbol-table entry, so re-running it with
a non-empty symbol table on its own fully-resolved output (no
comments, no `@NAME@` tokens, no `@include` directives, no `@unroll`
loops — witnessed below by every stage acting as the identity) adds
the preamble a second time. -/
theorem claim_C2_counterexample :
    (V1.generateGLSL [] [] 1 [(str "A", 1)] (str "x") none none
      = Except.ok (str "#define A 1\nx"))
    ∧ stripBlockComments (str "#define A 1\nx") = str "#define A 1\nx"
    ∧ stripLineComments (str "#define A 1\nx") = str "#define A 1\nx"
    ∧ substConstants (resolveConstants [] [(str "A", 1)]) mkErrV1
        (str "#define A 1\nx") = (str "#define A 1\nx", [])
    ∧ (∀ recur, expandIncludes recur (str "#define A 1\nx")
        = Except.ok (str "#define A 1\nx"))
    ∧ unrollLoops [(str "A", 1)] (str "#define A 1\nx")
        = Except.ok (str "#define A 1\nx")
    ∧ V1.generateGLSL [] [] 1 [(str "A", 1)] (str "#define A 1\nx") none none
        = Except.ok (str "#define A 1\n#define A 1\nx")
    ∧ str "#define A 1\n#define A 1\nx" ≠ str "#define A 1\nx" :=
  ⟨rfl, rfl, rfl, rfl, fun _ => rfl, rfl, rfl, by decide⟩

/-- C2 amended: on input whose unprocessed form every stage leaves
unchanged (fully resolved text), `generateGLSL` returns the `#define`
preamble followed by that text; re-running is therefore a no-op
exactly when the symbol table is empty. -/
theorem claim_C2 (globals : Defines) (fs : FS) (fuel : Nat) (d : Defines)
    (t : Str) (code : Str)
    (hcode : code = generateUnprocessedGLSL d t none none)
    (hb : stripBlockComments code = code)
    (hl : stripLineComments code = code)
    (hc : substConstants (resolveConstants globals d) mkErrV1 code = (code, []))
    (hi : ∀ recur, expandIncludes recur code = Except.ok code)
    (hu : unrollLoops d code = Except.ok code) :
    V1.generateGLSL globals fs (fuel + 1) d t none none
      = Except.ok (definePreamble d ++ t)
    ∧ (d = [] →
      V1.generateGLSL globals fs (fuel + 1) d t none none = Except.ok t) := by
  subst hcode
  have key : V1.generateGLSL globals fs (fuel + 1) d t none none
      = Except.ok (generateUnprocessedGLSL d t none none) := by
    simp only [V1.generateGLSL, hb, hl, hc, hi, hu, errorTrailer, List.map_nil,
      List.flatten_nil, List.append_nil, Except.bind, Bind.bind]
  constructor
  · rw [key, generateUnprocessedGLSL_none]
  · intro hd
    subst hd
    rw [key, generateUnprocessedGLSL_none]
    simp [definePreamble]

/-- Witness for C2 (amended) at a concrete non-empty symbol table. -/
theorem claim_C2_witness :
    V1.generateGLSL [] [] 1 [(str "A", 2)] (str "y") none none
      = Except.ok (definePreamble [(str "A", 2)] ++ str "y") :=
  (claim_C2 [] [] 0 [(str "A", 2)] (str "y")
    (generateUnprocessedGLSL [(str "A", 2)] (str "y") none none)
    rfl rfl rfl rfl (fun _ => rfl) rfl).1

/-- C1 as stated is refuted here: the two `generateGLSL` versions in
the repository do not apply the stages in one fixed order.  The 2023
version expands `@include` before substituting `@NAME@` constants: on
an include directive whose file name contains a constant token, it
fails to read the file, while the claimed order (constants before
includes, as the 2024 version does) resolves the token first and
succeeds. -/
theorem claim_C1_counterexample :
    (V4.generateGLSL [] [(str "3.glsl", str "ok")] 2 [(str "A", 3)]
        (str "@include \"@A@.glsl\"") none none
      = Except.error PErr.fileNotFound)
    ∧ (V4.generateGLSLClaimedOrder [] [(str "3.glsl", str "ok")] 2 [(str "A", 3)]
        (str "@include \"@A@.glsl\"") none none
      = Except.ok (str "#define A 3\n#define A 3\nok"))
    ∧ (V1.generateGLSL [] [(str "3.glsl", str "ok")] 2 [(str "A", 3)]
        (str "@include \"@A@.glsl\"") none none
      = Except.ok (str "#define A 3\n#define A 3\nok"))
    ∧ (V4.generateGLSL [] [(str "3.glsl", str "ok")] 2 [(str "A", 3)]
        (str "@include \"@A@.glsl\"") none none
      ≠ V4.generateGLSLClaimedOrder [] [(str "3.glsl", str "ok")] 2 [(str "A", 3)]
        (str "@include \"@A@.glsl\"") none none) := by
  refine ⟨rfl, rfl, rfl, ?_⟩
  intro h
  rw [(rfl : V4.generateGLSL [] [(str "3.glsl", str "ok")] 2 [(str "A", 3)]
        (str "@include \"@A@.glsl\"") none none
      = Except.error PErr.fileNotFound),
    (rfl : V4.generateGLSLClaimedOrder [] [(str "3.glsl", str "ok")] 2
        [(str "A", 3)] (str "@include \"@A@.glsl\"") none none
      = Except.ok (str "#define A 3\n#define A 3\nok"))] at h
  exact Except.noConfusion h

/-- C1 amended: the 2024 version (`part_001`) applies the stages in
the order comment stripping, constant substitution, include expansion
(recursively re-running the whole pipeline on the included file), loop
unrolling; the 2023 version (`part_004`) expands includes before
substituting constants, otherwise in the same order.  Unresolved-name
diagnostics are appended after unrolling in both. -/
theorem claim_C1 (globals mc : Defines) (fs : FS) (fuel : Nat) (d : Defines)
    (inf : Str) (pre suf : Option Str) :
    (V1.generateGLSL globals fs (fuel + 1) d inf pre suf
      = (let code := generateUnprocessedGLSL d inf pre suf
         let c1 := stripLineComments (stripBlockComments code)
         let p := substConstants (resolveConstants globals d) mkErrV1 c1
         do
          let c3 ← expandIncludes
            (fun filename => do
              let content ← readfileSync fs filename
              V1.generateGLSL globals fs fuel d content none none) p.1
          let c4 ← unrollLoops d c3
          Except.ok (c4 ++ errorTrailer p.2)))
    ∧ (V4.generateGLSL mc fs (fuel + 1) d inf pre suf
      = (let code := generateUnprocessedGLSL d inf pre suf
         let c1 := stripLineComments (stripBlockComments code)
         do
          let c2 ← expandIncludes
            (fun filename => do
              let content ← readfileSync fs filename
              V4.generateGLSL mc fs fuel d content none none) c1
          let p := substConstants (resolveConstants mc d) mkErrV4 c2
          let c4 ← unrollLoops d p.1
          Except.ok (c4 ++ errorTrailer p.2))) := by
  constructor
  · simp only [V1.generateGLSL]
  · simp only [V4.generateGLSL]

/-- Witness for C6 at concrete ports: a write the output spec rejects
errors, a write it accepts stores the message, and a connected input
port with a rejecting predicate errors at pull time. -/
theorem claim_C6_witness :
    ((OutputPort.new ⟨MessageType.Image, fun _ => true⟩).write
        ⟨MessageType.Keypoints, 0⟩ = Except.error PortError.illegalArgument)
    ∧ ((OutputPort.new ⟨MessageType.Image, fun _ => true⟩).write
        ⟨MessageType.Image, 7⟩
      = Except.ok ⟨⟨MessageType.Image, fun _ => true⟩, ⟨MessageType.Image, 7⟩⟩)
    ∧ ((⟨⟨MessageType.Image, fun _ => false⟩, EMPTY_MESSAGE,
        some ⟨⟨MessageType.Image, fun _ => true⟩, ⟨MessageType.Image, 7⟩⟩⟩ :
          InputPort).pullMessage
      = Except.error PortError.illegalArgument) :=
  ⟨(claim_C6 (OutputPort.new ⟨MessageType.Image, fun _ => true⟩)
      ⟨MessageType.Keypoints, 0⟩
      (InputPort.new ⟨MessageType.Image, fun _ => true⟩)).2.1 rfl,
   (claim_C6 (OutputPort.new ⟨MessageType.Image, fun _ => true⟩)
      ⟨MessageType.Image, 7⟩
      (InputPort.new ⟨MessageType.Image, fun _ => true⟩)).2.2.1 rfl,
   (claim_C6 ⟨⟨MessageType.Image, fun _ => true⟩, ⟨MessageType.Image, 7⟩⟩
      ⟨MessageType.Image, 7⟩
      (⟨⟨MessageType.Image, fun _ => false⟩, EMPTY_MESSAGE,
        some ⟨⟨MessageType.Image, fun _ => true⟩, ⟨MessageType.Image, 7⟩⟩⟩ :
          InputPort)).2.2.2.1 rfl rfl rfl rfl⟩

section BufferedReads

lemma pe_nil : PEadj [] := by
  intro k i h
  simp at h

lemma pe_append {tr evs : List Event} (h1 : PEadj tr) (h2 : PEadj evs) :
    PEadj (tr ++ evs) := by
  intro k i h
  by_cases hk : k < tr.length
  · rw [List.getElem?_append_left hk] at h
    obtain ⟨r, j, hj, hget⟩ := h1 k i h
    exact ⟨r, j, hj, by rw [List.getElem?_append_left (by omega)]; exact hget⟩
  · push_neg at hk
    rw [List.getElem?_append_right hk] at h
    obtain ⟨r, j, hj, hget⟩ := h2 (k - tr.length) i h
    refine ⟨r, tr.length + j, by omega, ?_⟩
    rw [List.getElem?_append_right (by omega)]
    simpa using hget

lemma pe_noPE {evs : List Event}
    (h : ∀ e ∈ evs, ∀ i, e ≠ Event.producerEnqueue i) : PEadj evs := by
  intro k i hk
  exact absurd rfl (h _ (List.getElem?_mem hk) i)

lemma resolves_append (tr evs : List Event) :
    resolves (tr ++ evs) = resolves tr ++ resolves evs := by
  simp [resolves]

lemma seedLoop_noSubs : ∀ (k i : Nat) (st : RState) (acc : List Event),
    st.consSubs = [] →
    seedLoop k i st acc
      = some ({ st with consumerQ := st.consumerQ ++ List.range' i k },
          acc ++ (List.range' i k).map Event.consumerEnqueue) := by
  intro k
  induction k with
  | zero =>
    intro i st acc h
    obtain ⟨pq, cq, ps, cs, fl, iss, rs, ss, pi⟩ := st
    simp [seedLoop]
  | succ k ih =>
    intro i st acc h
    obtain ⟨pq, cq, ps, cs, fl, iss, rs, ss, pi⟩ := st
    simp only at h
    subst h
    simp only [seedLoop, consumerEnqueueFn, fireConsumerSubs]
    rw [ih]
    · simp [List.range'_succ]
    · rfl

lemma pe_block4 (a : Event) (r idx : Nat)
    (ha : ∀ i, a ≠ Event.producerEnqueue i) :
    PEadj [a, Event.resolve r idx, Event.producerEnqueue idx,
      Event.startTransfer idx] := by
  intro k i h
  match k with
  | 0 => simp at h; exact absurd h (ha i)
  | 1 => simp at h
  | 2 =>
    simp at h
    subst h
    exact ⟨r, 1, rfl, rfl⟩
  | 3 => simp at h
  | n + 4 => simp at h

lemma pe_block5 (a b : Event) (r idx : Nat)
    (ha : ∀ i, a ≠ Event.producerEnqueue i)
    (hb : ∀ i, b ≠ Event.producerEnqueue i) :
    PEadj [a, b, Event.resolve r idx, Event.producerEnqueue idx,
      Event.startTransfer idx] := by
  intro k i h
  match k with
  | 0 => simp at h; exact absurd h (ha i)
  | 1 => simp at h; exact absurd h (hb i)
  | 2 => simp at h
  | 3 =>
    simp at h
    subst h
    exact ⟨r, 2, rfl, rfl⟩
  | 4 => simp at h
  | n + 5 => simp at h

lemma pe_map_consumerEnqueue (l : List Nat) :
    PEadj (l.map Event.consumerEnqueue) := by
  refine pe_noPE ?_
  intro e he i
  simp only [List.mem_map] at he
  obtain ⟨x, _, hx⟩ := he
  subst hx
  simp

lemma pe_seed_events (n : Nat) :
    PEadj (Event.seed :: Event.consumerEnqueue 0 :: Event.resolve 0 0 ::
      Event.producerEnqueue 0 :: Event.startTransfer 0 ::
      (List.range' 1 n).map Event.consumerEnqueue) :=
  pe_append (pe_block5 Event.seed (Event.consumerEnqueue 0) 0 0
    (fun i => by simp) (fun i => by simp)) (pe_map_consumerEnqueue _)

lemma resolves_map_consumerEnqueue (l : List Nat) :
    resolves (l.map Event.consumerEnqueue) = [] := by
  induction l with
  | nil => rfl
  | cons x xs ih => simp [resolves]

lemma inv_step (N M : Nat) (st : RState) (tr : List Event) (ch : Choice)
    (st' : RState) (evs : List Event)
    (hinv : Inv N M st tr) (hstep : step N M st ch = some (st', evs)) :
    Inv N M st' (tr ++ evs) := by
  obtain ⟨pq, cq, ps, cs, fl, iss, rs, ss, pi⟩ := st
  simp only [Inv, circulating] at hinv ⊢
  obtain ⟨h1, h2, h3, h4, h5, h6, h7, h8, h9, h10, h11, h12⟩ := hinv
  subst h7
  cases ch with
  | issue =>
    simp only [step] at hstep
    split at hstep
    case isFalse => exact absurd hstep (by simp)
    case isTrue hguard =>
      obtain ⟨hM, hri⟩ := hguard
      subst hri
      have hps : ps = 0 := by omega
      have hcs : cs = [] := by rw [h2, Nat.sub_self]; rfl
      subst hps hcs
      cases cq with
      | cons idx q' =>
        have hpi : pi = true := by
          cases pi
          · exact absurd (h10 rfl).2.2.2 (by simp)
          · rfl
        have hss : ss = false := by
          cases ss
          · rfl
          · exact absurd (h9 rfl).2.2.2.2 (by simp)
        subst hpi hss
        simp only [issueRead, producerEnqueueFn, fireCbs, List.nil_append,
          Bool.not_true, Bool.false_eq_true, if_false, Option.some.injEq,
          Prod.mk.injEq] at hstep
        obtain ⟨rfl, rfl⟩ := hstep
        dsimp only
        refine ⟨?_, ?_, ?_, ?_, ?_, ?_, rfl, ?_, ?_, ?_, ?_, ?_⟩
        · rw [resolves_append, List.map_append, h1]
          simp [resolves, List.range_succ]
        · simp
        · simp
        · simp
        · simpa using hM
        · simp
        · simp only [List.length_nil, List.length_cons, List.length_append] at h8 ⊢
          simp at h8 ⊢
          omega
        · simp
        · simp
        · intro _
          omega
        · exact pe_append h12 (pe_block4 (Event.issue rs) rs idx (fun i => by simp))
      | nil =>
        cases pi with
        | true =>
          have hss : ss = false := by
            cases ss
            · rfl
            · have h9' := h9 rfl
              omega
          subst hss
          simp only [issueRead, producerEnqueueFn, fireCbs, List.nil_append,
            Bool.not_true, Bool.false_eq_true, if_false, Option.some.injEq,
            Prod.mk.injEq] at hstep
          obtain ⟨rfl, rfl⟩ := hstep
          dsimp only
          refine ⟨?_, ?_, ?_, ?_, ?_, ?_, rfl, ?_, ?_, ?_, ?_, ?_⟩
          · rw [resolves_append, List.map_append, h1]
            simp [resolves]
          · have hh : rs + 1 - rs = 1 := by omega
            rw [hh, List.range'_one]
          · simp
          · omega
          · simpa using hM
          · simp
          · simpa using h8
          · simp
          · simp
          · intro _
            omega
          · refine pe_append h12 (pe_noPE ?_)
            intro e he i
            simp at he
            subst he
            simp
        | false =>
          obtain ⟨hiss, _, hfl, _⟩ := h10 rfl
          subst hiss hfl
          have hss : ss = false := by
            cases ss
            · rfl
            · exact absurd (h9 rfl).1 (by simp)
          subst hss
          simp only [issueRead, producerEnqueueFn, fireCbs, List.nil_append,
            Bool.not_false, if_true, Option.some.injEq, Prod.mk.injEq] at hstep
          obtain ⟨rfl, rfl⟩ := hstep
          dsimp only
          refine ⟨?_, ?_, ?_, ?_, ?_, ?_, rfl, ?_, ?_, ?_, ?_, ?_⟩
          · rw [resolves_append, List.map_append, h1]
            simp [resolves]
          · simp [List.range'_one]
          · simp
          · simp
          · simpa using hM
          · simp
          · simp
          · simp
          · simp
          · simp
          · refine pe_append h12 (pe_noPE ?_)
            intro e he i
            simp at he
            subst he
            simp
  | seed =>
    simp only [step] at hstep
    split at hstep
    case isFalse => exact absurd hstep (by simp)
    case isTrue hss =>
      obtain ⟨hpi, hiss, hrs, hfl, hcq⟩ := h9 hss
      subst hpi hiss hrs hfl hcq hss
      have hps : ps = 1 := by omega
      have hcs : cs = [0] := by rw [h2]; rfl
      subst hps hcs
      cases N with
      | zero =>
        simp only [seedLoop, Option.some.injEq, Prod.mk.injEq] at hstep
        obtain ⟨rfl, rfl⟩ := hstep
        dsimp only
        refine ⟨?_, ?_, ?_, ?_, ?_, ?_, rfl, ?_, ?_, ?_, ?_, ?_⟩
        · rw [resolves_append, List.map_append, h1]
          simp [resolves]
        · rfl
        · rfl
        · omega
        · omega
        · omega
        · simp
        · simp
        · simp
        · simp
        · refine pe_append h12 (pe_noPE ?_)
          intro e he i
          simp at he
          subst he
          simp
      | succ n =>
        simp only [seedLoop, consumerEnqueueFn, fireConsumerSubs,
          producerEnqueueFn, fireCbs, List.nil_append] at hstep
        rw [seedLoop_noSubs n 1 _ _ rfl] at hstep
        simp only [Option.some.injEq, Prod.mk.injEq] at hstep
        obtain ⟨rfl, rfl⟩ := hstep
        dsimp only
        refine ⟨?_, ?_, ?_, ?_, ?_, ?_, rfl, ?_, ?_, ?_, ?_, ?_⟩
        · simp only [resolves_append, resolves_map_consumerEnqueue,
            List.map_append, h1]
          simp [resolves, List.range_succ]
        · rfl
        · rfl
        · omega
        · omega
        · omega
        · simp
        · simp
        · simp
        · simp
        · exact pe_append h12 (pe_seed_events n)
  | complete pos =>
    simp only [step] at hstep
    cases hget : fl[pos]? with
    | none => rw [hget] at hstep; exact absurd hstep (by simp)
    | some i =>
      rw [hget] at hstep
      have hpos : pos < fl.length := by
        by_contra hc
        push_neg at hc
        rw [List.getElem?_eq_none hc] at hget
        exact Option.noConfusion hget
      have hfl_ne : fl ≠ [] := by
        intro h
        subst h
        simp at hpos
      have hpi : pi = true := by
        cases pi
        · exact absurd (h10 rfl).2.2.1 hfl_ne
        · rfl
      have hss : ss = false := by
        cases ss
        · rfl
        · exact absurd (h9 rfl).2.2.2.1 hfl_ne
      subst hpi hss
      have hlen : (fl.eraseIdx pos).length = fl.length - 1 :=
        List.length_eraseIdx_of_lt hpos
      have hdiff : iss - rs = 0 ∨ iss - rs = 1 := by omega
      rcases hdiff with hd | hd
      · have hcs : cs = [] := by rw [h2, hd]; rfl
        have hps : ps = 0 := by omega
        subst hcs hps
        simp only [consumerEnqueueFn, fireConsumerSubs, Option.some.injEq,
          Prod.mk.injEq] at hstep
        obtain ⟨rfl, rfl⟩ := hstep
        dsimp only
        refine ⟨?_, ?_, ?_, ?_, ?_, ?_, rfl, ?_, ?_, ?_, ?_, ?_⟩
        · rw [resolves_append, List.map_append, h1]
          simp [resolves]
        · simpa using h2
        · simpa using h3
        · omega
        · omega
        · omega
        · simp only [List.length_nil, List.length_append, List.length_cons,
            List.length_singleton] at h8 ⊢
          simp at h8 ⊢
          omega
        · simp
        · simp
        · intro _
          exact h11 rfl
        · refine pe_append h12 (pe_noPE ?_)
          intro e he j
          simp at he
          rcases he with he | he <;> subst he <;> simp
      · have hcs : cs = [rs] := by rw [h2, hd, List.range'_one]
        have hps : ps = 1 := by omega
        have hiss : iss = rs + 1 := by omega
        subst hcs hps hiss
        cases cq with
        | nil =>
          simp only [consumerEnqueueFn, fireConsumerSubs, producerEnqueueFn,
            fireCbs, List.nil_append, Option.some.injEq, Prod.mk.injEq] at hstep
          obtain ⟨rfl, rfl⟩ := hstep
          dsimp only
          refine ⟨?_, ?_, ?_, ?_, ?_, ?_, rfl, ?_, ?_, ?_, ?_, ?_⟩
          · rw [resolves_append, List.map_append, h1]
            simp [resolves, List.range_succ]
          · simp
          · simp
          · simp
          · simpa using h5
          · simp
          · simp only [List.length_nil, List.length_append, List.length_cons]
              at h8 ⊢
            simp at h8 ⊢
            omega
          · simp
          · simp
          · intro _
            omega
          · exact pe_append h12 (pe_block5 (Event.complete i)
              (Event.consumerEnqueue i) rs i (fun j => by simp)
              (fun j => by simp))
        | cons c q'' =>
          simp only [consumerEnqueueFn, fireConsumerSubs, producerEnqueueFn,
            fireCbs, List.cons_append, List.nil_append, Option.some.injEq,
            Prod.mk.injEq] at hstep
          obtain ⟨rfl, rfl⟩ := hstep
          dsimp only
          refine ⟨?_, ?_, ?_, ?_, ?_, ?_, rfl, ?_, ?_, ?_, ?_, ?_⟩
          · rw [resolves_append, List.map_append, h1]
            simp [resolves, List.range_succ]
          · simp
          · simp
          · simp
          · simpa using h5
          · simp
          · simp only [List.length_nil, List.length_append, List.length_cons]
              at h8 ⊢
            simp at h8 ⊢
            omega
          · simp
          · simp
          · intro _
            omega
          · exact pe_append h12 (pe_block5 (Event.complete i)
              (Event.consumerEnqueue i) rs c (fun j => by simp)
              (fun j => by simp))

lemma inv_init (N M : Nat) : Inv N M initRState [] := by
  unfold Inv
  refine ⟨rfl, rfl, rfl, le_refl _, Nat.zero_le _, by simp [initRState], rfl,
    by simp [circulating, initRState], ?_, ?_, ?_, pe_nil⟩
  · intro h
    simp [initRState] at h
  · intro _
    exact ⟨rfl, rfl, rfl, rfl⟩
  · intro h
    simp [initRState] at h

lemma inv_run (N M : Nat) : ∀ (chs : List Choice) (st : RState)
    (tr : List Event) (st' : RState) (tr' : List Event),
    Inv N M st tr → run N M st tr chs = some (st', tr') → Inv N M st' tr' := by
  intro chs
  induction chs with
  | nil =>
    intro st tr st' tr' hinv hrun
    simp only [run, Option.some.injEq, Prod.mk.injEq] at hrun
    obtain ⟨rfl, rfl⟩ := hrun
    exact hinv
  | cons ch rest ih =>
    intro st tr st' tr' hinv hrun
    simp only [run] at hrun
    cases hstep : step N M st ch with
    | none => rw [hstep] at hrun; exact absurd hrun (by simp)
    | some p =>
      obtain ⟨s1, t1⟩ := p
      rw [hstep] at hrun
      exact ih _ _ _ _ (inv_step N M st tr ch s1 t1 hinv hstep) hrun

lemma run_append (N M : Nat) : ∀ (l1 l2 : List Choice) (st : RState)
    (tr : List Event),
    run N M st tr (l1 ++ l2)
      = (match run N M st tr l1 with
         | none => none
         | some (s, t) => run N M s t l2) := by
  intro l1
  induction l1 with
  | nil => intro l2 st tr; simp [run]
  | cons ch rest ih =>
    intro l2 st tr
    simp only [List.cons_append, run]
    cases hstep : step N M st ch with
    | none => simp
    | some p =>
      obtain ⟨s1, t1⟩ := p
      exact ih l2 s1 (tr ++ t1)

lemma good_step (N M j : Nat) (st : RState) (tr : List Event)
    (hg : Good N j st) (hj : j < M) :
    ∃ st' tr', run N M st tr [Choice.issue, Choice.complete 0] = some (st', tr')
      ∧ Good N (j + 1) st' := by
  obtain ⟨pq, cq, ps, cs, fl, iss, rs, ss, pi⟩ := st
  obtain ⟨hpq, hps, hcs, hiss, hrs, hss, hpi, hlen, hfl⟩ := hg
  dsimp only at hpq hps hcs hiss hrs hss hpi hlen hfl hj
  subst hpq hps hcs hss hpi hiss hrs
  cases fl with
  | nil => exact absurd rfl hfl
  | cons a f' =>
    cases cq with
    | cons idx q' =>
      refine ⟨⟨[], q' ++ [a], 0, [], f' ++ [idx], rs + 1, rs + 1, false, true⟩,
        tr ++ [Event.issue rs, Event.resolve rs idx,
          Event.producerEnqueue idx, Event.startTransfer idx,
          Event.complete a, Event.consumerEnqueue a], ?_, ?_⟩
      · simp only [run, step, issueRead, producerEnqueueFn, fireCbs,
          consumerEnqueueFn, fireConsumerSubs, List.nil_append]
        simp [hj, fireConsumerSubs, producerEnqueueFn, fireCbs,
          consumerEnqueueFn]
      · refine ⟨rfl, rfl, rfl, rfl, rfl, rfl, rfl, ?_, ?_⟩
        · simp only [List.length_cons, List.length_append] at hlen ⊢
          simp at hlen ⊢
          omega
        · simp
    | nil =>
      refine ⟨⟨[], [], 0, [], f' ++ [a], rs + 1, rs + 1, false, true⟩,
        tr ++ [Event.issue rs, Event.complete a, Event.consumerEnqueue a,
          Event.resolve rs a, Event.producerEnqueue a,
          Event.startTransfer a], ?_, ?_⟩
      · simp only [run, step, issueRead, producerEnqueueFn, fireCbs,
          consumerEnqueueFn, fireConsumerSubs, List.nil_append]
        simp [hj, fireConsumerSubs, producerEnqueueFn, fireCbs,
          consumerEnqueueFn]
      · refine ⟨rfl, rfl, rfl, rfl, rfl, rfl, rfl, ?_, ?_⟩
        · simp only [List.length_cons, List.length_append, List.length_nil]
            at hlen ⊢
          simp at hlen ⊢
          omega
        · simp

lemma good_iter (N M : Nat) : ∀ (m j : Nat) (st : RState) (tr : List Event),
    Good N j st → j + m ≤ M →
    ∃ st' tr', run N M st tr
        ((List.replicate m [Choice.issue, Choice.complete 0]).flatten)
        = some (st', tr') ∧ Good N (j + m) st' := by
  intro m
  induction m with
  | zero =>
    intro j st tr hg hle
    exact ⟨st, tr, rfl, by simpa using hg⟩
  | succ m ih =>
    intro j st tr hg hle
    obtain ⟨st1, tr1, hrun1, hg1⟩ := good_step N M j st tr hg (by omega)
    obtain ⟨st2, tr2, hrun2, hg2⟩ := ih (j + 1) st1 tr1 hg1 (by omega)
    refine ⟨st2, tr2, ?_, ?_⟩
    · rw [List.replicate_succ, List.flatten_cons, run_append, hrun1]
      exact hrun2
    · have hjm : j + (m + 1) = j + 1 + m := by omega
      rw [hjm]
      exact hg2

lemma canon_start (N M : Nat) (hN : 0 < N) (hM : 0 < M) :
    ∃ st tr, run N M initRState [] [Choice.issue, Choice.seed] = some (st, tr)
      ∧ Good N 1 st := by
  cases N with
  | zero => omega
  | succ n =>
    refine ⟨⟨[], List.range' 1 n, 0, [], [0], 1, 1, false, true⟩,
      [Event.issue 0, Event.seed, Event.consumerEnqueue 0, Event.resolve 0 0,
        Event.producerEnqueue 0, Event.startTransfer 0]
        ++ (List.range' 1 n).map Event.consumerEnqueue, ?_, ?_⟩
    · simp only [run, step, initRState, issueRead, producerEnqueueFn, fireCbs,
        consumerEnqueueFn, fireConsumerSubs, seedLoop, List.nil_append,
        Bool.not_false, if_true, hM, true_and, and_true, eq_self_iff_true]
      rw [seedLoop_noSubs n 1 _ _ rfl]
      simp
    · exact ⟨rfl, rfl, rfl, rfl, rfl, rfl, rfl, by simp, by simp⟩

end BufferedReads

/-- C9: under sequential awaited buffered reads, every execution of
the producer/consumer mechanism resolves the promises in request order
(`0, 1, 2, …`), never has more buffer indices circulating between the
queues and the in-flight transfers than the configured number of
buffers `N`, and pushes a buffer index back into the producer queue
only immediately after resolving a read with that buffer's data;
moreover (for `N > 0`) a schedule exists that resolves all `M`
reads. -/
theorem claim_C9 (N M : Nat) :
    (∀ chs st tr, exec N M chs = some (st, tr) →
      (resolves tr).map Prod.fst = List.range st.resolved
      ∧ st.resolved ≤ st.issued ∧ st.issued ≤ M
      ∧ circulating st ≤ N
      ∧ (∀ k i, tr[k]? = some (Event.producerEnqueue i) →
          ∃ r j, j + 1 = k ∧ tr[j]? = some (Event.resolve r i)))
    ∧ (0 < N →
      ∃ chs st tr, exec N M chs = some (st, tr)
        ∧ st.resolved = M ∧ st.issued = M
        ∧ (resolves tr).map Prod.fst = List.range M) := by
  have hsafe : ∀ chs st tr, exec N M chs = some (st, tr) → Inv N M st tr :=
    fun chs st tr h => inv_run N M chs initRState [] st tr (inv_init N M) h
  constructor
  · intro chs st tr hexec
    obtain ⟨h1, _, _, h4, h5, _, _, h8, _, _, _, h12⟩ := hsafe chs st tr hexec
    refine ⟨h1, h4, h5, ?_, h12⟩
    rw [h8]
    split <;> omega
  · intro hN
    cases M with
    | zero => exact ⟨[], initRState, [], rfl, rfl, rfl, rfl⟩
    | succ m =>
      obtain ⟨st1, tr1, hrun1, hg1⟩ := canon_start N (m + 1) hN (by omega)
      obtain ⟨st2, tr2, hrun2, hg2⟩ :=
        good_iter N (m + 1) m 1 st1 tr1 hg1 (by omega)
      have hexec : exec N (m + 1) (canonSchedule (m + 1)) = some (st2, tr2) := by
        show run N (m + 1) initRState [] _ = _
        simp only [canonSchedule]
        rw [run_append, hrun1]
        exact hrun2
      have hres : st2.resolved = m + 1 := by
        have := hg2.2.2.2.2.1
        omega
      have hiss : st2.issued = m + 1 := by
        have := hg2.2.2.2.1
        omega
      refine ⟨canonSchedule (m + 1), st2, tr2, hexec, hres, hiss, ?_⟩
      have h1 := (hsafe _ _ _ hexec).1
      rw [h1, hres]

/-- Witness for C9 at `N = 1`, `M = 1` with the canonical schedule:
the concrete execution resolves read 0 with buffer 0, keeps one index
circulating, and its producer-enqueue immediately follows the
resolution. -/
theorem claim_C9_witness :
    ((resolves [Event.issue 0, Event.seed, Event.consumerEnqueue 0,
        Event.resolve 0 0, Event.producerEnqueue 0,
        Event.startTransfer 0]).map Prod.fst = List.range 1)
    ∧ circulating ⟨[], [], 0, [], [0], 1, 1, false, true⟩ ≤ 1
    ∧ (∃ chs st tr, exec 1 1 chs = some (st, tr)
        ∧ st.resolved = 1 ∧ st.issued = 1
        ∧ (resolves tr).map Prod.fst = List.range 1) := by
  have h := (claim_C9 1 1).1 [Choice.issue, Choice.seed]
    ⟨[], [], 0, [], [0], 1, 1, false, true⟩
    [Event.issue 0, Event.seed, Event.consumerEnqueue 0, Event.resolve 0 0,
      Event.producerEnqueue 0, Event.startTransfer 0] rfl
  exact ⟨h.1, h.2.2.2.1, (claim_C9 1 1).2 (by decide)⟩

end Speedy
